import Mathlib

/-!
Verification of the Angular `@defer` block engine.

This file gives a shallow embedding of the defer-block runtime
(`packages/core/src/defer/instructions.ts`) and of the defer trigger parser
(`packages/compiler/src/render3/r3_deferred_triggers.ts`), and proves the
specification claims about them.

Modelling conventions:
* TypeScript numbers used as enum values, timestamps and durations become
  `Int`; machine floating point is idealised as `ℚ` for the time parser.
* Mutable objects (`LDeferBlockDetails`, `TDeferBlockDetails`) become
  records threaded through functions.
* DOM effects (`removeLViewFromLContainer` / `addLViewToLContainer`) are
  recorded in an append-only action log; `setTimeout`-style scheduling is
  modelled by a list of pending timers plus explicit fire events.
* Asynchronous continuations (promise resolution, timer callbacks) are
  modelled as explicit events delivered after the synchronous code ran.
-/

set_option linter.unusedVariables false

namespace Angular

/-- Visible defer block states (`DeferBlockState`).  The numeric enum values
are documented in the `isValidStateChange` comment in instructions.ts:
placeholder = 0, loading = 1, complete = 2, error = 3. -/
inductive DeferBlockState
  | Placeholder
  | Loading
  | Complete
  | Error
deriving DecidableEq, Repr

/-- The numeric value of a `DeferBlockState` enum member. -/
def DeferBlockState.toInt : DeferBlockState → Int
  | .Placeholder => 0
  | .Loading => 1
  | .Complete => 2
  | .Error => 3

/-- `DeferBlockState` extended with `DeferBlockInternalState.Initial`.
`Initial` is below every visible state: `renderDeferBlockState` substitutes
`-1` for an empty next-state buffer, and the same value stands for a block
on which nothing was rendered yet. -/
inductive DeferState
  | Initial
  | St (s : DeferBlockState)
deriving DecidableEq, Repr

/-- Numeric value of a `DeferState`; `Initial` is `-1`. -/
def DeferState.toInt : DeferState → Int
  | .Initial => -1
  | .St s => s.toInt

/-- Modelled from the spec: `DeferredLoadingBlockConfig` (defer/interfaces.ts
is not part of the corpus) — the `minimum` and `after` timing parameters of
the `@loading` block, in milliseconds, each optional. -/
structure DeferredLoadingBlockConfig where
  minimumMs : Option Int
  afterMs : Option Int
deriving DecidableEq, Repr

/-- Modelled from the spec: `DeferredPlaceholderBlockConfig` — the `minimum`
timing parameter of the `@placeholder` block. -/
structure DeferredPlaceholderBlockConfig where
  minimumMs : Option Int
deriving DecidableEq, Repr

/-- The static, per-template part of `TDeferBlockDetails` as created by
`ɵɵdefer`: template slot indices for the sub-templates (nullable except the
primary one), the timing configs attached by `ɵɵdeferEnableTimerScheduling`,
and whether a dependency resolver function was supplied.  The mutable
loading fields (`loadingState`, `loadingPromise`, `providers`) live in
`LoaderState` below. -/
structure TDeferBlockDetails where
  primaryTmplIndex : Nat
  loadingTmplIndex : Option Nat
  placeholderTmplIndex : Option Nat
  errorTmplIndex : Option Nat
  placeholderBlockConfig : Option DeferredPlaceholderBlockConfig
  loadingBlockConfig : Option DeferredLoadingBlockConfig
  hasDependencyResolverFn : Bool
deriving DecidableEq, Repr

/-- Modelled from the spec: `getTemplateIndexForState` (defer/utils.ts is not
in the corpus) — the template slot index holding the sub-template for a
visible state: primary content for `Complete`, and the loading, placeholder
and error templates for the other states, `null` when the block does not
declare the corresponding sub-template. -/
def getTemplateIndexForState (newState : DeferBlockState) (tDetails : TDeferBlockDetails) :
    Option Nat :=
  match newState with
  | .Complete => some tDetails.primaryTmplIndex
  | .Loading => tDetails.loadingTmplIndex
  | .Error => tDetails.errorTmplIndex
  | .Placeholder => tDetails.placeholderTmplIndex

/-- Modelled from the spec: `getLoadingBlockAfter` (defer/utils.ts) — the
`after` duration of the `@loading` block config, `null` when absent. -/
def getLoadingBlockAfter (tDetails : TDeferBlockDetails) : Option Int :=
  match tDetails.loadingBlockConfig with
  | some cfg => cfg.afterMs
  | none => none

/-- Modelled from the spec: `getMinimumDurationForState` (defer/utils.ts) —
the `minimum` duration configured for the `@loading` or `@placeholder`
sub-view; no other state has a minimum duration. -/
def getMinimumDurationForState (tDetails : TDeferBlockDetails) (state : DeferBlockState) :
    Option Int :=
  match state with
  | .Loading =>
    match tDetails.loadingBlockConfig with
    | some cfg => cfg.minimumMs
    | none => none
  | .Placeholder =>
    match tDetails.placeholderBlockConfig with
    | some cfg => cfg.minimumMs
    | none => none
  | _ => none

/-- The per-instance `LDeferBlockDetails` array: next-state buffer, rendered
state, freeze-until timestamp, and the cleanup function of a pending
loading-after timer (represented by the armed timer's id). -/
structure LDeferBlockDetails where
  nextDeferBlockState : Option DeferBlockState
  deferBlockState : DeferState
  stateIsFrozenUntil : Option Int
  loadingAfterCleanupFn : Option Nat
deriving DecidableEq, Repr

/-- The `LDeferBlockDetails` produced by `ɵɵdefer` for a fresh instance. -/
def initialLDeferBlockDetails : LDeferBlockDetails :=
  { nextDeferBlockState := none
    deferBlockState := .Initial
    stateIsFrozenUntil := none
    loadingAfterCleanupFn := none }

/-- A DOM effect of `applyDeferBlockState` on the block's view container,
stamped with the time at which it happened. -/
inductive RenderAction
  | removeView (time : Int)
  | addView (state : DeferBlockState) (time : Int)
deriving DecidableEq, Repr

/-- A pending timer armed by `scheduleDeferBlockUpdate`.  Modelled from the
spec: `scheduleTimerTrigger` (defer/timer_scheduler.ts is not in the corpus)
arms a host timer that fires the shared update callback no earlier than
`dueTime` and returns a cleanup function cancelling it. -/
structure ArmedTimer where
  id : Nat
  dueTime : Int
deriving DecidableEq, Repr

/-- The state touched by the rendering side of the engine: the instance
details, the pending update timers, the DOM action log and the clock. -/
structure RenderState where
  lDetails : LDeferBlockDetails
  timers : List ArmedTimer
  nextTimerId : Nat
  log : List RenderAction
  now : Int
  destroyed : Bool
deriving DecidableEq, Repr

/-- A fresh instance at time 0. -/
def initialRenderState : RenderState :=
  { lDetails := initialLDeferBlockDetails
    timers := []
    nextTimerId := 0
    log := []
    now := 0
    destroyed := false }

/-- `isValidStateChange`: the previous state must be represented by a number
strictly less than the next state. -/
def isValidStateChange (currentState newState : Int) : Bool :=
  currentState < newState

/-- JS truthiness of a nullable number (`null` and `0` are falsy), used for
the unguarded third disjunct of `needsScheduling`. -/
def truthyNum : Option Int → Bool
  | none => false
  | some v => v != 0

/-- `applyDeferBlockState`: looks up the template index for the new state;
when present, stores the new state in `DEFER_BLOCK_STATE`, removes the
currently mounted view from the container and mounts the sub-template of the
new state (injector creation for the `Complete` state and hydration are not
observable at this level and are absorbed into the mount action). When no
template index exists the function does nothing. -/
def applyDeferBlockState (tDetails : TDeferBlockDetails) (newState : DeferBlockState)
    (st : RenderState) : RenderState :=
  match getTemplateIndexForState newState tDetails with
  | none => st
  | some _ =>
    { st with
      lDetails := { st.lDetails with deferBlockState := .St newState }
      log := st.log ++ [.removeView st.now, .addView newState st.now] }

/-- `scheduleDeferBlockUpdate`: arms a timer for the shared update callback
after `timeout` and returns it (its id doubles as the cleanup handle). -/
def scheduleDeferBlockUpdate (timeout : Int) (st : RenderState) : Nat × RenderState :=
  (st.nextTimerId,
    { st with
      timers := st.timers ++ [⟨st.nextTimerId, st.now + timeout⟩]
      nextTimerId := st.nextTimerId + 1 })

/-- Invoking the cleanup function of an armed timer cancels it. -/
def cancelTimer (id : Nat) (st : RenderState) : RenderState :=
  { st with timers := st.timers.filter (fun t => t.id ≠ id) }

/-- First statement of the else-branch of `applyDeferBlockStateWithScheduling`:
if transitioning past `Loading` while a loading-after timer is pending,
invoke its cleanup (cancelling the timer) and drop the buffered state. -/
def cancelLoadingAfterOnExit (newState : DeferBlockState) (st : RenderState) : RenderState :=
  match st.lDetails.loadingAfterCleanupFn with
  | some id =>
    if DeferBlockState.toInt .Loading < newState.toInt then
      let st := cancelTimer id st
      { st with
        lDetails :=
          { st.lDetails with loadingAfterCleanupFn := none, nextDeferBlockState := none } }
    else st
  | none => st

/-- Last statement of the else-branch of `applyDeferBlockStateWithScheduling`:
when the new state has a minimum duration, freeze transitions until it
elapses and schedule an update at that point (the returned cleanup is
discarded by the source). -/
def applyMinimumDuration (tDetails : TDeferBlockDetails) (newState : DeferBlockState)
    (st : RenderState) : RenderState :=
  match getMinimumDurationForState tDetails newState with
  | some duration =>
    let st :=
      { st with
        lDetails := { st.lDetails with stateIsFrozenUntil := some (st.now + duration) } }
    (scheduleDeferBlockUpdate duration st).2
  | none => st

/-- The else-branch of `applyDeferBlockStateWithScheduling`: cancel a pending
loading-after phase when moving past `Loading`, apply the new state, then
handle its minimum duration. -/
def applySchedulingElseBranch (tDetails : TDeferBlockDetails) (newState : DeferBlockState)
    (st : RenderState) : RenderState :=
  applyMinimumDuration tDetails newState
    (applyDeferBlockState tDetails newState (cancelLoadingAfterOnExit newState st))

/-- The loading-after branch of `applyDeferBlockStateWithScheduling`: buffer
the `Loading` request in `NEXT_DEFER_BLOCK_STATE`, arm an update timer for
the `after` duration and store its cleanup in `LOADING_AFTER_CLEANUP_FN`. -/
def enterLoadingAfterPhase (after : Int) (st : RenderState) : RenderState :=
  let st :=
    { st with lDetails := { st.lDetails with nextDeferBlockState := some .Loading } }
  let cleanupId := st.nextTimerId
  let st := (scheduleDeferBlockUpdate after st).2
  { st with lDetails := { st.lDetails with loadingAfterCleanupFn := some cleanupId } }

/-- The frozenness test at the top of `applyDeferBlockStateWithScheduling`:
`STATE_IS_FROZEN_UNTIL` is unset or has elapsed. -/
def notFrozen (st : RenderState) : Bool :=
  match st.lDetails.stateIsFrozenUntil with
  | none => true
  | some f => decide (f ≤ st.now)

/-- `applyDeferBlockStateWithScheduling`: when the state is not frozen, a
`Loading` request with an `after` config (outside of a loading-after phase)
enters the loading-after phase; otherwise the else-branch applies the state.
While frozen, the request is only buffered into `NEXT_DEFER_BLOCK_STATE`. -/
def applyDeferBlockStateWithScheduling (tDetails : TDeferBlockDetails)
    (newState : DeferBlockState) (st : RenderState) : RenderState :=
  if notFrozen st then
    let st := { st with lDetails := { st.lDetails with stateIsFrozenUntil := none } }
    match getLoadingBlockAfter tDetails with
    | some after =>
      if newState = .Loading && !st.lDetails.loadingAfterCleanupFn.isSome then
        enterLoadingAfterPhase after st
      else
        applySchedulingElseBranch tDetails newState st
    | none =>
      applySchedulingElseBranch tDetails newState st
  else
    { st with lDetails := { st.lDetails with nextDeferBlockState := some newState } }

/-- The `?? -1` default applied to `NEXT_DEFER_BLOCK_STATE` in the guard of
`renderDeferBlockState`. -/
def bufferedStateAsInt (lDetails : LDeferBlockDetails) : Int :=
  match lDetails.nextDeferBlockState with
  | some s => s.toInt
  | none => -1

/-- `renderDeferBlockState`: no-op on a destroyed view; otherwise the new
state is applied only when it passes `isValidStateChange` against both the
rendered state and the buffered next state.  Timer-based scheduling is used
on the browser (unless `skipTimerScheduling`) when the static config has a
loading `after`, a loading `minimum`, or a truthy placeholder `minimum`. -/
def renderDeferBlockState (tDetails : TDeferBlockDetails) (newState : DeferBlockState)
    (isBrowser : Bool) (skipTimerScheduling : Bool) (st : RenderState) : RenderState :=
  if st.destroyed then st
  else
    if isValidStateChange st.lDetails.deferBlockState.toInt newState.toInt &&
        isValidStateChange (bufferedStateAsInt st.lDetails) newState.toInt then
      let needsScheduling :=
        !skipTimerScheduling && isBrowser &&
          ((getLoadingBlockAfter tDetails).isSome ||
            (getMinimumDurationForState tDetails .Loading).isSome ||
            truthyNum (getMinimumDurationForState tDetails .Placeholder))
      if needsScheduling then applyDeferBlockStateWithScheduling tDetails newState st
      else applyDeferBlockState tDetails newState st
    else st

/-- The callback armed by `scheduleDeferBlockUpdate`: reads and clears the
buffered next state and the freeze timestamp, then re-submits the buffered
state through `renderDeferBlockState` (with default scheduling). -/
def deferBlockUpdateCallback (tDetails : TDeferBlockDetails) (isBrowser : Bool)
    (st : RenderState) : RenderState :=
  let nextState := st.lDetails.nextDeferBlockState
  let st :=
    { st with
      lDetails :=
        { st.lDetails with stateIsFrozenUntil := none, nextDeferBlockState := none } }
  match nextState with
  | some s => renderDeferBlockState tDetails s isBrowser false st
  | none => st

/-- An event delivered to a defer block instance: a transition request at a
given time, or the firing of a pending update timer at a given time. -/
inductive DeferEvent
  | request (s : DeferBlockState) (time : Int)
  | fire (id : Nat) (time : Int)
deriving DecidableEq, Repr

/-- Single event delivery.  Time never goes backwards, and a timer fires only
while pending and no earlier than its due time (late delivery models event
loop delays); events violating these constraints are dropped. -/
def stepEvent (tDetails : TDeferBlockDetails) (isBrowser : Bool) (st : RenderState) :
    DeferEvent → RenderState
  | .request s time =>
    if st.now ≤ time then
      renderDeferBlockState tDetails s isBrowser false { st with now := time }
    else st
  | .fire id time =>
    if st.now ≤ time && st.timers.any (fun t => t.id == id && decide (t.dueTime ≤ time)) then
      let st :=
        { st with now := time, timers := st.timers.filter (fun t => t.id ≠ id) }
      deferBlockUpdateCallback tDetails isBrowser st
    else st

/-- Runs a sequence of events against a defer block instance. -/
def runEvents (tDetails : TDeferBlockDetails) (isBrowser : Bool) (st : RenderState) :
    List DeferEvent → RenderState
  | [] => st
  | e :: es => runEvents tDetails isBrowser (stepEvent tDetails isBrowser st e) es

/-! ### Dependency loader (`triggerResourceLoading` and its continuation) -/

/-- `DeferDependenciesLoadingState`: the static loading state stored on
`TDeferBlockDetails`. -/
inductive DeferDependenciesLoadingState
  | NOT_STARTED
  | IN_PROGRESS
  | COMPLETE
  | FAILED
deriving DecidableEq, Repr

/-- The value returned by `triggerResourceLoading`: either the promise object
stored in `tDetails.loadingPromise` (promises are identified by a numeric
id, so that "the identical in-flight promise" is expressible), or a fresh
already-resolved promise (`Promise.resolve()`). -/
inductive PromiseRef
  | existing (id : Nat)
  | freshResolved
deriving DecidableEq, Repr

/-- The mutable loading fields of `TDeferBlockDetails`, together with the
pending-task counter of the injector's `PendingTasks` service and a ghost
count of how many times the block's `dependencyResolverFn` was invoked. -/
structure LoaderState where
  loadingState : DeferDependenciesLoadingState
  loadingPromise : Option Nat
  nextPromiseId : Nat
  pendingTaskCount : Nat
  resolverInvocations : Nat
deriving DecidableEq, Repr

/-- The loader side of a block whose dependencies were never requested. -/
def initialLoaderState : LoaderState :=
  { loadingState := .NOT_STARTED
    loadingPromise := none
    nextPromiseId := 0
    pendingTaskCount := 0
    resolverInvocations := 0 }

/-- `triggerResourceLoading`: when loading already started, returns
`loadingPromise ?? Promise.resolve()` without touching anything; otherwise
switches `NOT_STARTED → IN_PROGRESS`, registers a pending task, invokes the
dependency resolver function when one exists, stores the loading promise and
returns it.  (The prefetch-trigger cleanup invocation and the dev-mode
interceptor are bookkeeping outside this state and are modelled at the
`DeferSys` level.) -/
def triggerResourceLoading (tDetails : TDeferBlockDetails) (l : LoaderState) :
    LoaderState × PromiseRef :=
  if l.loadingState ≠ .NOT_STARTED then
    (l, match l.loadingPromise with
        | some id => .existing id
        | none => .freshResolved)
  else
    let l := { l with loadingState := .IN_PROGRESS, pendingTaskCount := l.pendingTaskCount + 1 }
    if tDetails.hasDependencyResolverFn then
      ({ l with
          resolverInvocations := l.resolverInvocations + 1
          loadingPromise := some l.nextPromiseId
          nextPromiseId := l.nextPromiseId + 1 },
        .existing l.nextPromiseId)
    else
      ({ l with
          loadingPromise := some l.nextPromiseId
          nextPromiseId := l.nextPromiseId + 1 },
        .existing l.nextPromiseId)

/-- What a settled dependency promise yields when inspected with
`getComponentDef` / `getDirectiveDef` / `getPipeDef`. -/
inductive DepKind
  | directiveDef
  | pipeDef
  | neitherDef
deriving DecidableEq, Repr

/-- One element of the `Promise.allSettled` result array. -/
inductive SettledResult
  | fulfilled (dep : DepKind)
  | rejected
deriving DecidableEq, Repr

/-- The result-scanning loop of the loading continuation: fulfilled results
are partitioned into directive and pipe definitions; the first rejected
result sets the `failed` flag and breaks out of the loop. -/
def processLoadedResults : List SettledResult → Bool × List DepKind × List DepKind
  | [] => (false, [], [])
  | .rejected :: _ => (true, [], [])
  | .fulfilled dep :: rest =>
    let (failed, directiveDefs, pipeDefs) := processLoadedResults rest
    match dep with
    | .directiveDef => (failed, dep :: directiveDefs, pipeDefs)
    | .pipeDef => (failed, directiveDefs, dep :: pipeDefs)
    | .neitherDef => (failed, directiveDefs, pipeDefs)

/-- Modelled from the spec: `addDepsToRegistry` (defer/utils.ts) — appends the
newly loaded definitions to a registry (no duplicate elimination). -/
def addDepsToRegistry (registry : List DepKind) (deps : List DepKind) : List DepKind :=
  registry ++ deps

/-- The directive and pipe registries of the primary block's `TView`. -/
structure PrimaryBlockRegistries where
  directiveRegistry : List DepKind
  pipeRegistry : List DepKind
deriving DecidableEq, Repr

/-- Everything the loading continuation can touch: the loader state, the
primary block registries, whether providers were cached on the static
details, and whether a `RuntimeError` was surfaced via `handleError`. -/
structure SettleOutcome where
  loader : LoaderState
  registries : PrimaryBlockRegistries
  providersCached : Bool
  handleErrorInvoked : Bool
deriving DecidableEq, Repr

/-- The continuation attached to `Promise.allSettled(dependenciesFn())` in
`triggerResourceLoading`: clears the loading promise and the pending task;
if any dependency was rejected, sets `FAILED` and — when no `@error`
sub-template is configured — surfaces a `RuntimeError` through
`handleError`; otherwise sets `COMPLETE`, appends the loaded definitions to
the registries and caches providers extracted from loaded standalone
components.  (The continuation of the no-resolver short-cut promise is the
`results = []` instance of this function.) -/
def resolveLoadingPromise (tDetails : TDeferBlockDetails) (results : List SettledResult)
    (l : LoaderState) (regs : PrimaryBlockRegistries) : SettleOutcome :=
  let failed := (processLoadedResults results).1
  let directiveDefs := (processLoadedResults results).2.1
  let pipeDefs := (processLoadedResults results).2.2
  let l := { l with loadingPromise := none, pendingTaskCount := l.pendingTaskCount - 1 }
  if failed then
    { loader := { l with loadingState := .FAILED }
      registries := regs
      providersCached := false
      handleErrorInvoked := tDetails.errorTmplIndex.isNone }
  else
    let regs :=
      if directiveDefs.length > 0 then
        { regs with directiveRegistry := addDepsToRegistry regs.directiveRegistry directiveDefs }
      else regs
    let regs :=
      if pipeDefs.length > 0 then
        { regs with pipeRegistry := addDepsToRegistry regs.pipeRegistry pipeDefs }
      else regs
    { loader := { l with loadingState := .COMPLETE }
      registries := regs
      providersCached := directiveDefs.length > 0
      handleErrorInvoked := false }

/-- An event on the loader: a call to `triggerResourceLoading`, or the
in-flight loading promise settling with the given results. -/
inductive LoaderEvent
  | callTrigger
  | settle (results : List SettledResult)
deriving DecidableEq, Repr

/-- Loader event delivery.  The settle continuation can only run while a
loading promise is in flight. -/
def loaderStep (tDetails : TDeferBlockDetails) (l : LoaderState) : LoaderEvent → LoaderState
  | .callTrigger => (triggerResourceLoading tDetails l).1
  | .settle results =>
    if l.loadingState = .IN_PROGRESS then
      (resolveLoadingPromise tDetails results l ⟨[], []⟩).loader
    else l

/-- Runs a sequence of loader events. -/
def runLoaderEvents (tDetails : TDeferBlockDetails) (l : LoaderState) :
    List LoaderEvent → LoaderState
  | [] => l
  | e :: es => runLoaderEvents tDetails (loaderStep tDetails l e) es

/-! ### Instruction level: triggers (`ɵɵdeferWhen`, `scheduleDelayedTrigger`,
`scheduleDelayedPrefetching`, `triggerDeferBlock`) -/

/-- A whole defer block instance: rendering state, loader state, the counts
of stored regular and prefetch trigger cleanup functions, a ghost count of
invocations of the idle/timer scheduling primitive, and whether
`renderDeferStateAfterResourceLoading` subscribed to the loading promise. -/
structure DeferSys where
  render : RenderState
  loader : LoaderState
  regularCleanupFns : Nat
  prefetchCleanupFns : Nat
  scheduleFnCalls : Nat
  resultSubscribed : Bool
deriving DecidableEq, Repr

/-- `shouldTriggerDeferBlock`: defer blocks are triggered only on the browser
and only when `DeferBlockBehavior.Manual` is not configured. -/
def shouldTriggerDeferBlock (manualBehavior isBrowser : Bool) : Bool :=
  !manualBehavior && isBrowser

/-- `renderPlaceholder`: renders the placeholder state (if a placeholder
template is present) through `renderDeferBlockState`. -/
def renderPlaceholder (tDetails : TDeferBlockDetails) (isBrowser : Bool) (sys : DeferSys) :
    DeferSys :=
  { sys with render := renderDeferBlockState tDetails .Placeholder isBrowser false sys.render }

/-- `invokeAllTriggerCleanupFns`: runs and clears the regular and prefetch
trigger cleanup functions of the instance. -/
def invokeAllTriggerCleanupFns (sys : DeferSys) : DeferSys :=
  { sys with regularCleanupFns := 0, prefetchCleanupFns := 0 }

/-- `triggerResourceLoading` lifted to a whole instance: invokes the prefetch
trigger cleanup functions when loading actually starts. -/
def triggerResourceLoadingSys (tDetails : TDeferBlockDetails) (sys : DeferSys) : DeferSys :=
  if sys.loader.loadingState = .NOT_STARTED then
    { sys with
      loader := (triggerResourceLoading tDetails sys.loader).1
      prefetchCleanupFns := 0 }
  else
    { sys with loader := (triggerResourceLoading tDetails sys.loader).1 }

/-- `triggerDeferBlock`: when triggering is allowed, invokes all trigger
cleanup functions and then, depending on the loading state, renders Loading
and starts resource loading (subscribing to the outcome), renders Loading
and subscribes, renders Complete, or renders Error. -/
def triggerDeferBlock (manualBehavior isBrowser : Bool) (tDetails : TDeferBlockDetails)
    (sys : DeferSys) : DeferSys :=
  if !shouldTriggerDeferBlock manualBehavior isBrowser then sys
  else
    let sys := invokeAllTriggerCleanupFns sys
    match sys.loader.loadingState with
    | .NOT_STARTED =>
      let sys :=
        { sys with render := renderDeferBlockState tDetails .Loading isBrowser false sys.render }
      let sys := triggerResourceLoadingSys tDetails sys
      if sys.loader.loadingState = .IN_PROGRESS then { sys with resultSubscribed := true }
      else sys
    | .IN_PROGRESS =>
      let sys :=
        { sys with render := renderDeferBlockState tDetails .Loading isBrowser false sys.render }
      { sys with resultSubscribed := true }
    | .COMPLETE =>
      { sys with render := renderDeferBlockState tDetails .Complete isBrowser false sys.render }
    | .FAILED =>
      { sys with render := renderDeferBlockState tDetails .Error isBrowser false sys.render }

/-- The body of `ɵɵdeferWhen` in the case where `bindingUpdated` reported a
changed binding value (otherwise the instruction does nothing): a falsy
value while nothing is rendered yet renders the placeholder; a truthy value
while in the initial or placeholder state triggers the block. -/
def deferWhen (value : Bool) (manualBehavior isBrowser : Bool) (tDetails : TDeferBlockDetails)
    (sys : DeferSys) : DeferSys :=
  let renderedState := sys.render.lDetails.deferBlockState
  if value = false ∧ renderedState = .Initial then
    renderPlaceholder tDetails isBrowser sys
  else
    if value = true ∧ (renderedState = .Initial ∨ renderedState = .St .Placeholder) then
      triggerDeferBlock manualBehavior isBrowser tDetails sys
    else sys

/-- `scheduleDelayedTrigger` (used by `ɵɵdeferOnIdle` / `ɵɵdeferOnTimer`):
renders the placeholder, and only on the browser invokes the idle/timer
scheduling function and stores the returned cleanup function as a regular
trigger cleanup. -/
def scheduleDelayedTrigger (isBrowser : Bool) (tDetails : TDeferBlockDetails) (sys : DeferSys) :
    DeferSys :=
  let sys := renderPlaceholder tDetails isBrowser sys
  if isBrowser then
    { sys with
      scheduleFnCalls := sys.scheduleFnCalls + 1
      regularCleanupFns := sys.regularCleanupFns + 1 }
  else sys

/-- `scheduleDelayedPrefetching` (used by `ɵɵdeferPrefetchOnIdle` /
`ɵɵdeferPrefetchOnTimer`): only on the browser, and only when loading has
not started, invokes the scheduling function and stores its cleanup as a
prefetch trigger cleanup. -/
def scheduleDelayedPrefetching (isBrowser : Bool) (tDetails : TDeferBlockDetails)
    (sys : DeferSys) : DeferSys :=
  if isBrowser then
    if sys.loader.loadingState = .NOT_STARTED then
      { sys with
        scheduleFnCalls := sys.scheduleFnCalls + 1
        prefetchCleanupFns := sys.prefetchCleanupFns + 1 }
    else sys
  else sys

/-! ### Trigger parser (`r3_deferred_triggers.ts`) -/

/-- `\d` of `TIME_PATTERN`. -/
def isDigitChar (c : Char) : Bool :=
  decide ('0' ≤ c ∧ c ≤ '9')

/-- The natural number denoted by a digit string. -/
def digitsToNat (ds : List Char) : Nat :=
  ds.foldl (fun acc c => 10 * acc + (c.toNat - '0'.toNat)) 0

/-- The rational value `parseFloat` yields on the numeric part of a
`TIME_PATTERN` match: integer digits `ds1`, fractional digits `ds2`
(floating-point rounding is idealised away). -/
def timeValue (ds1 ds2 : List Char) : ℚ :=
  (digitsToNat ds1 : ℚ) + (digitsToNat ds2 : ℚ) / ((10 : ℚ) ^ ds2.length)

/-- Anchored match of `TIME_PATTERN = /^\d+\.?\d*(ms|s)?$/`: one or more
digits, an optional dot, further optional digits, and an optional `ms` or
`s` suffix (the capture group).  Returns the integer digits, the fractional
digits and the suffix, or `none` when the string does not match.  Greedy
matching with backtracking coincides with this direct decomposition because
none of `.`, `m`, `s` is a digit. -/
def matchTimePattern (cs : List Char) : Option (List Char × List Char × List Char) :=
  let ds1 := cs.takeWhile isDigitChar
  let rest := cs.dropWhile isDigitChar
  if ds1.isEmpty then none
  else
    let rest2 := match rest with
      | '.' :: r => r
      | r => r
    let ds2 := rest2.takeWhile isDigitChar
    let suffix := rest2.dropWhile isDigitChar
    if suffix = [] ∨ suffix = ['s'] ∨ suffix = ['m', 's'] then some (ds1, ds2, suffix)
    else none

/-- `parseDeferredTime`: matches the value against `TIME_PATTERN` and returns
the parsed number multiplied by 1000 when the captured units are `s`, by 1
otherwise (`ms` or no suffix); `null` when the pattern does not match. -/
def parseDeferredTime (value : String) : Option ℚ :=
  match matchTimePattern value.toList with
  | none => none
  | some (ds1, ds2, units) =>
    some (timeValue ds1 ds2 * (if units = ['s'] then 1000 else 1))

/-- An html AST node of a placeholder block body, as far as the validation
cares: either a `t.Element` or some other node kind. -/
inductive HtmlNode
  | element
  | nonElement
deriving DecidableEq, Repr

/-- The `@placeholder` block passed to the trigger parser: its child nodes. -/
structure DeferredBlockPlaceholder where
  children : List HtmlNode
deriving DecidableEq, Repr

/-- A hover/interaction/viewport trigger descriptor: the reference name of
its target element, `null` when the implicit placeholder target is used. -/
structure ReferenceTrigger where
  reference : Option String
deriving DecidableEq, Repr

/-- `validateReferenceBasedTrigger`: at most one parameter; with zero
parameters a placeholder block must exist and consist of exactly one root
element node.  Thrown `Error`s become `Except.error` (the caller converts
them into parse errors). -/
def validateReferenceBasedTrigger (type : String) (parameters : List String)
    (placeholder : Option DeferredBlockPlaceholder) : Except String Unit := do
  if parameters.length > 1 then
    throw ("\"" ++ type ++ "\" trigger can only have zero or one parameters")
  if parameters.length = 0 then
    match placeholder with
    | none =>
      throw ("\"" ++ type ++
        "\" trigger with no parameters can only be placed on an @defer that has a @placeholder block")
    | some ph =>
      if ph.children.length ≠ 1 ∨ ph.children.head? ≠ some HtmlNode.element then
        throw ("\"" ++ type ++
          "\" trigger with no parameters can only be placed on an @defer that has a " ++
          "@placeholder block with exactly one root element node")
  return ()

/-- `createHoverTrigger`: validates and produces the descriptor whose
reference is `parameters[0] ?? null`. -/
def createHoverTrigger (parameters : List String)
    (placeholder : Option DeferredBlockPlaceholder) : Except String ReferenceTrigger := do
  let _ ← validateReferenceBasedTrigger "hover" parameters placeholder
  return { reference := parameters.head? }

/-- `createInteractionTrigger`. -/
def createInteractionTrigger (parameters : List String)
    (placeholder : Option DeferredBlockPlaceholder) : Except String ReferenceTrigger := do
  let _ ← validateReferenceBasedTrigger "interaction" parameters placeholder
  return { reference := parameters.head? }

/-- `createViewportTrigger`. -/
def createViewportTrigger (parameters : List String)
    (placeholder : Option DeferredBlockPlaceholder) : Except String ReferenceTrigger := do
  let _ ← validateReferenceBasedTrigger "viewport" parameters placeholder
  return { reference := parameters.head? }

/-- The condition under which a parameterless reference-based trigger is
accepted: a placeholder block with exactly one root element child. -/
def placeholderAllowsImplicitTarget : Option DeferredBlockPlaceholder → Bool
  | none => false
  | some ph => ph.children = [HtmlNode.element]

/-! ### Concrete block configurations used as witnesses and counterexamples -/

/-- A block with all four sub-templates and no timing configuration. -/
def tdPlain : TDeferBlockDetails :=
  { primaryTmplIndex := 0
    loadingTmplIndex := some 2
    placeholderTmplIndex := some 1
    errorTmplIndex := some 3
    placeholderBlockConfig := none
    loadingBlockConfig := none
    hasDependencyResolverFn := true }

/-- A block without a `@loading` sub-template. -/
def tdNoLoadingTmpl : TDeferBlockDetails :=
  { primaryTmplIndex := 0
    loadingTmplIndex := none
    placeholderTmplIndex := some 1
    errorTmplIndex := none
    placeholderBlockConfig := none
    loadingBlockConfig := none
    hasDependencyResolverFn := true }

/-- A block with `@loading(after 100ms)` and no minimum durations. -/
def tdAfterOnly : TDeferBlockDetails :=
  { primaryTmplIndex := 0
    loadingTmplIndex := some 2
    placeholderTmplIndex := some 1
    errorTmplIndex := some 3
    placeholderBlockConfig := none
    loadingBlockConfig := some { minimumMs := none, afterMs := some 100 }
    hasDependencyResolverFn := true }

/-- A block with `@placeholder(minimum 10ms)` and `@loading(after 100ms)`. -/
def tdRace : TDeferBlockDetails :=
  { primaryTmplIndex := 0
    loadingTmplIndex := some 2
    placeholderTmplIndex := some 1
    errorTmplIndex := some 3
    placeholderBlockConfig := some { minimumMs := some 10 }
    loadingBlockConfig := some { minimumMs := none, afterMs := some 100 }
    hasDependencyResolverFn := true }

/-- Placeholder rendered at 0 (arming the minimum-duration timer, id 0),
Loading requested at 10 (arming the loading-after timer, id 1), and the
minimum-duration timer firing at 10. -/
def raceEvents : List DeferEvent :=
  [.request .Placeholder 0, .request .Loading 10, .fire 0 10]

/-! ### Invariants used in the trace proofs -/

/-- The times of the Loading transition requests in an event sequence. -/
def loadingRequestTimes : List DeferEvent → List Int
  | [] => []
  | .request .Loading t :: es => t :: loadingRequestTimes es
  | _ :: es => loadingRequestTimes es

/-- The Loading request time contributed by a single event. -/
def eventLoadingTimes : DeferEvent → List Int
  | .request .Loading t => [t]
  | _ => []

/-- Invariant tying the loading-after machinery of a block whose config has
`after = d` (and no minimum durations) to the set `R` of Loading request
times seen so far: every mounted loading view, and every pending update
timer, lies at least `d` after some Loading request; a pending timer is
unique, is the one owned by `LOADING_AFTER_CLEANUP_FN` and coexists with a
buffered Loading state; a buffered state is always Loading with a cleanup
present; a stored cleanup is either still pending or stale only after at
least `d` elapsed since a Loading request; and the state is never frozen. -/
structure LoadingAfterInv (d : Int) (R : List Int) (st : RenderState) : Prop where
  mounts : ∀ t : Int, RenderAction.addView .Loading t ∈ st.log → ∃ t0 ∈ R, t0 + d ≤ t
  timers : ∀ tm ∈ st.timers,
    (∃ t0 ∈ R, t0 + d ≤ tm.dueTime) ∧
      st.lDetails.loadingAfterCleanupFn = some tm.id ∧
      st.lDetails.nextDeferBlockState = some .Loading ∧
      ∀ tm' ∈ st.timers, tm' = tm
  nextB : ∀ s, st.lDetails.nextDeferBlockState = some s →
    s = .Loading ∧ st.lDetails.loadingAfterCleanupFn ≠ none
  cleanup : ∀ id, st.lDetails.loadingAfterCleanupFn = some id →
    (∃ tm ∈ st.timers, tm.id = id) ∨ ∃ t0 ∈ R, t0 + d ≤ st.now
  frozen : st.lDetails.stateIsFrozenUntil = none

/-! ## Theorems -/

/-- C10: when the requested state has no corresponding sub-template
(`getTemplateIndexForState` returns null), `applyDeferBlockState` changes
nothing: the whole render state is unchanged — in particular the stored
`DEFER_BLOCK_STATE` keeps its previous value and no view is removed from or
added to the block's container. -/
theorem applyDeferBlockState_noop_without_template (tDetails : TDeferBlockDetails)
    (newState : DeferBlockState) (st : RenderState)
    (h : getTemplateIndexForState newState tDetails = none) :
    applyDeferBlockState tDetails newState st = st ∧
      (applyDeferBlockState tDetails newState st).lDetails.deferBlockState =
        st.lDetails.deferBlockState ∧
      (applyDeferBlockState tDetails newState st).log = st.log := by
  unfold applyDeferBlockState
  rw [h]
  exact ⟨rfl, rfl, rfl⟩

/-- Witness for C10: a block without a loading template, asked to render
Loading. -/
theorem applyDeferBlockState_noop_without_template_witness :
    applyDeferBlockState tdNoLoadingTmpl .Loading initialRenderState = initialRenderState :=
  (applyDeferBlockState_noop_without_template tdNoLoadingTmpl .Loading initialRenderState
    (by decide)).1

/-- Helper: without scheduling, `applyDeferBlockState` leaves timers alone. -/
theorem applyDeferBlockState_timers (tDetails : TDeferBlockDetails)
    (newState : DeferBlockState) (st : RenderState) :
    (applyDeferBlockState tDetails newState st).timers = st.timers := by
  unfold applyDeferBlockState
  cases getTemplateIndexForState newState tDetails <;> rfl

/-- Helper: on a non-browser platform `renderDeferBlockState` never uses the
scheduling implementation, so it arms no timers. -/
theorem renderDeferBlockState_server_timers (tDetails : TDeferBlockDetails)
    (newState : DeferBlockState) (skip : Bool) (st : RenderState) :
    (renderDeferBlockState tDetails newState false skip st).timers = st.timers := by
  unfold renderDeferBlockState
  split
  · rfl
  · split
    · simp only [Bool.and_false, Bool.false_and, Bool.false_eq_true, if_false]
      exact applyDeferBlockState_timers ..
    · rfl

/-- C8: in a non-interactive (non-browser) context the idle/timer scheduling
function is never invoked and no cleanup function is armed: the regular
trigger only performs placeholder rendering (which arms no timers), and the
prefetch trigger does nothing at all. -/
theorem delayed_triggers_skipped_on_server (tDetails : TDeferBlockDetails) (sys : DeferSys) :
    scheduleDelayedTrigger false tDetails sys = renderPlaceholder tDetails false sys ∧
      (scheduleDelayedTrigger false tDetails sys).scheduleFnCalls = sys.scheduleFnCalls ∧
      (scheduleDelayedTrigger false tDetails sys).regularCleanupFns = sys.regularCleanupFns ∧
      (scheduleDelayedTrigger false tDetails sys).prefetchCleanupFns = sys.prefetchCleanupFns ∧
      (scheduleDelayedTrigger false tDetails sys).render.timers = sys.render.timers ∧
      scheduleDelayedPrefetching false tDetails sys = sys := by
  refine ⟨rfl, rfl, rfl, rfl, ?_, rfl⟩
  show (renderPlaceholder tDetails false sys).render.timers = sys.render.timers
  exact renderDeferBlockState_server_timers ..

/-- Helper: `throw` and `pure` for `Except String`. -/
theorem except_throw_eq (e : String) : (throw e : Except String Unit) = .error e := rfl

/-- Helper: `pure` for `Except String`. -/
theorem except_pure_eq {α : Type} (a : α) : (pure a : Except String α) = .ok a := rfl

/-- Helper: `validateReferenceBasedTrigger` rejects two or more parameters. -/
theorem validate_too_many_parameters (ty p q : String) (rest : List String)
    (ph : Option DeferredBlockPlaceholder) :
    validateReferenceBasedTrigger ty (p :: q :: rest) ph =
      .error ("\"" ++ ty ++ "\" trigger can only have zero or one parameters") := by
  simp [validateReferenceBasedTrigger, except_throw_eq, except_pure_eq, bind, Except.bind]

/-- Helper: `validateReferenceBasedTrigger` accepts a single parameter. -/
theorem validate_one_parameter (ty p : String) (ph : Option DeferredBlockPlaceholder) :
    validateReferenceBasedTrigger ty [p] ph = .ok () := by
  simp [validateReferenceBasedTrigger, except_throw_eq, except_pure_eq, bind, Except.bind]

/-- Helper: with zero parameters, validation succeeds exactly when the
placeholder allows an implicit target. -/
theorem validate_zero_parameters (ty : String) (ph : Option DeferredBlockPlaceholder) :
    (placeholderAllowsImplicitTarget ph = true →
        validateReferenceBasedTrigger ty [] ph = .ok ()) ∧
      (placeholderAllowsImplicitTarget ph = false →
        ∃ e, validateReferenceBasedTrigger ty [] ph = .error e) := by
  constructor
  · intro h
    match ph with
    | none => simp [placeholderAllowsImplicitTarget] at h
    | some p =>
      simp only [placeholderAllowsImplicitTarget, decide_eq_true_eq] at h
      simp [validateReferenceBasedTrigger, h, except_throw_eq, except_pure_eq, bind, Except.bind]
  · intro h
    match ph with
    | none => exact ⟨_, rfl⟩
    | some p =>
      simp only [placeholderAllowsImplicitTarget, decide_eq_false_iff_not] at h
      refine ⟨"\"" ++ ty ++
        "\" trigger with no parameters can only be placed on an @defer that has a " ++
        "@placeholder block with exactly one root element node", ?_⟩
      simp only [validateReferenceBasedTrigger]
      have : p.children.length ≠ 1 ∨ p.children.head? ≠ some HtmlNode.element := by
        match hc : p.children with
        | [] => exact Or.inl (by simp)
        | [x] =>
          cases x
          · exact absurd rfl (hc ▸ h)
          · exact Or.inr (by simp)
        | x :: y :: r => exact Or.inl (by simp)
      simp [this, except_throw_eq, except_pure_eq, bind, Except.bind]

/-- C9: for every hover/interaction/viewport trigger, more than one parameter
produces the "can only have zero or one parameters" parse error; zero
parameters produces a parse error unless the block declares a placeholder
whose children are exactly one root element node; with zero or one parameter
and a valid placeholder (when required), a trigger descriptor is produced
whose reference name is the single parameter or null. -/
theorem reference_triggers_validation :
    (∀ (p q : String) (rest : List String) (ph : Option DeferredBlockPlaceholder),
        createHoverTrigger (p :: q :: rest) ph =
          .error ("\"hover\" trigger can only have zero or one parameters") ∧
        createInteractionTrigger (p :: q :: rest) ph =
          .error ("\"interaction\" trigger can only have zero or one parameters") ∧
        createViewportTrigger (p :: q :: rest) ph =
          .error ("\"viewport\" trigger can only have zero or one parameters")) ∧
    (∀ ph : Option DeferredBlockPlaceholder, placeholderAllowsImplicitTarget ph = false →
        (∃ e, createHoverTrigger [] ph = .error e) ∧
        (∃ e, createInteractionTrigger [] ph = .error e) ∧
        (∃ e, createViewportTrigger [] ph = .error e)) ∧
    (∀ ph : Option DeferredBlockPlaceholder, placeholderAllowsImplicitTarget ph = true →
        createHoverTrigger [] ph = .ok ⟨none⟩ ∧
        createInteractionTrigger [] ph = .ok ⟨none⟩ ∧
        createViewportTrigger [] ph = .ok ⟨none⟩) ∧
    (∀ (r : String) (ph : Option DeferredBlockPlaceholder),
        createHoverTrigger [r] ph = .ok ⟨some r⟩ ∧
        createInteractionTrigger [r] ph = .ok ⟨some r⟩ ∧
        createViewportTrigger [r] ph = .ok ⟨some r⟩) := by
  refine ⟨?_, ?_, ?_, ?_⟩
  · intro p q rest ph
    refine ⟨?_, ?_, ?_⟩ <;>
      simp [createHoverTrigger, createInteractionTrigger, createViewportTrigger,
        validate_too_many_parameters, bind, Except.bind]
  · intro ph h
    obtain ⟨e1, h1⟩ := (validate_zero_parameters "hover" ph).2 h
    obtain ⟨e2, h2⟩ := (validate_zero_parameters "interaction" ph).2 h
    obtain ⟨e3, h3⟩ := (validate_zero_parameters "viewport" ph).2 h
    exact ⟨⟨e1, by simp [createHoverTrigger, h1, bind, Except.bind]⟩,
      ⟨e2, by simp [createInteractionTrigger, h2, bind, Except.bind]⟩,
      ⟨e3, by simp [createViewportTrigger, h3, bind, Except.bind]⟩⟩
  · intro ph h
    have h1 := (validate_zero_parameters "hover" ph).1 h
    have h2 := (validate_zero_parameters "interaction" ph).1 h
    have h3 := (validate_zero_parameters "viewport" ph).1 h
    refine ⟨?_, ?_, ?_⟩ <;>
      simp [createHoverTrigger, createInteractionTrigger, createViewportTrigger,
        h1, h2, h3, bind, Except.bind, except_pure_eq]
  · intro r ph
    refine ⟨?_, ?_, ?_⟩ <;>
      simp [createHoverTrigger, createInteractionTrigger, createViewportTrigger,
        validate_one_parameter, bind, Except.bind, except_pure_eq]

/-- Helper: the failed flag of the result-scanning loop is set exactly when
some dependency promise was rejected. -/
theorem processLoadedResults_failed (results : List SettledResult) :
    (processLoadedResults results).1 = results.any (fun r => r == .rejected) := by
  induction results with
  | nil => rfl
  | cons r rest ih =>
    cases r with
    | rejected => simp [processLoadedResults]
    | fulfilled dep =>
      cases dep <;> simp [processLoadedResults, ih]

/-- C4: if any dependency promise was rejected the whole load fails: the
loading state becomes `FAILED` (never `COMPLETE`), no definitions are merged
into the registries, and when no `@error` sub-template is configured a
`RuntimeError` is surfaced through `handleError`; if all dependencies
fulfil, the loading state becomes `COMPLETE`. -/
theorem resolveLoadingPromise_failure_policy (tDetails : TDeferBlockDetails)
    (results : List SettledResult) (l : LoaderState) (regs : PrimaryBlockRegistries) :
    ((∃ r ∈ results, r = .rejected) →
        (resolveLoadingPromise tDetails results l regs).loader.loadingState = .FAILED ∧
        (resolveLoadingPromise tDetails results l regs).registries = regs ∧
        (tDetails.errorTmplIndex = none →
          (resolveLoadingPromise tDetails results l regs).handleErrorInvoked = true)) ∧
    ((∀ r ∈ results, r ≠ .rejected) →
        (resolveLoadingPromise tDetails results l regs).loader.loadingState = .COMPLETE) := by
  constructor
  · intro hrej
    have hfail : (processLoadedResults results).1 = true := by
      rw [processLoadedResults_failed]
      simp only [List.any_eq_true]
      obtain ⟨r, hr, hre⟩ := hrej
      exact ⟨r, hr, by simp [hre]⟩
    unfold resolveLoadingPromise
    simp only [hfail, if_true]
    refine ⟨trivial, trivial, fun he => ?_⟩
    simp [he, Option.isNone]
  · intro hok
    have hfail : (processLoadedResults results).1 = false := by
      rw [processLoadedResults_failed]
      simp only [List.any_eq_false]
      intro r hr
      simp [hok r hr]
    unfold resolveLoadingPromise
    simp only [hfail, Bool.false_eq_true, if_false]

/-- Witness for C4: one fulfilled and one rejected dependency, on a block
with no error template. -/
theorem resolveLoadingPromise_failure_policy_witness :
    (resolveLoadingPromise tdNoLoadingTmpl [.fulfilled .directiveDef, .rejected]
        initialLoaderState ⟨[], []⟩).loader.loadingState = .FAILED :=
  ((resolveLoadingPromise_failure_policy tdNoLoadingTmpl
      [.fulfilled .directiveDef, .rejected] initialLoaderState ⟨[], []⟩).1
    ⟨.rejected, by decide, rfl⟩).1

/-- Witness for C9: `hover(a, b)` fails with the two-parameter error;
`interaction(ref)` produces a descriptor with reference `ref`. -/
theorem reference_triggers_validation_witness :
    createHoverTrigger ["a", "b"] none =
      .error ("\"hover\" trigger can only have zero or one parameters") ∧
      createInteractionTrigger ["ref"] none = .ok ⟨some "ref"⟩ :=
  ⟨(reference_triggers_validation.1 "a" "b" [] none).1,
    (reference_triggers_validation.2.2.2 "ref" none).2.1⟩

/-- Helper: invariant of the loader trace — the resolver was invoked at most
once, and not at all while loading has not started. -/
theorem loaderStep_preserves_invocations (tDetails : TDeferBlockDetails) (l : LoaderState)
    (e : LoaderEvent)
    (h : l.resolverInvocations ≤ 1 ∧
      (l.loadingState = .NOT_STARTED → l.resolverInvocations = 0)) :
    (loaderStep tDetails l e).resolverInvocations ≤ 1 ∧
      ((loaderStep tDetails l e).loadingState = .NOT_STARTED →
        (loaderStep tDetails l e).resolverInvocations = 0) := by
  obtain ⟨h1, h2⟩ := h
  cases e with
  | callTrigger =>
    simp only [loaderStep]
    unfold triggerResourceLoading
    by_cases hs : l.loadingState = .NOT_STARTED
    · have h0 := h2 hs
      simp only [hs, ne_eq, not_true_eq_false, if_false, reduceIte]
      cases hr : tDetails.hasDependencyResolverFn <;> simp_all
    · simp only [ne_eq, hs, not_false_eq_true, if_true]
      exact ⟨h1, fun hc => False.elim hc⟩
  | settle results =>
    simp only [loaderStep]
    by_cases hs : l.loadingState = .IN_PROGRESS
    · simp only [hs, if_true]
      unfold resolveLoadingPromise
      cases hf : (processLoadedResults results).1 <;> simp_all
    · simp only [hs, if_false, reduceIte]
      exact ⟨h1, h2⟩

/-- Helper: the loader-trace invariant holds after any event sequence. -/
theorem runLoaderEvents_invocations (tDetails : TDeferBlockDetails) (evs : List LoaderEvent)
    (l : LoaderState)
    (h : l.resolverInvocations ≤ 1 ∧
      (l.loadingState = .NOT_STARTED → l.resolverInvocations = 0)) :
    (runLoaderEvents tDetails l evs).resolverInvocations ≤ 1 := by
  induction evs generalizing l with
  | nil => exact h.1
  | cons e es ih =>
    exact ih (loaderStep tDetails l e) (loaderStep_preserves_invocations tDetails l e h)

/-- C3: `triggerResourceLoading` is idempotent per block: the first call
moves the loading state from `NOT_STARTED` to `IN_PROGRESS` and invokes the
dependency resolver function (when one exists); a call made while loading is
in progress returns the identical in-flight promise without touching
anything; a call made after completion or failure returns a fresh
already-resolved promise without touching anything; and over any sequence of
calls and promise settlements the resolver is invoked at most once. -/
theorem triggerResourceLoading_idempotent (tDetails : TDeferBlockDetails) :
    (∀ l : LoaderState, l.loadingState = .NOT_STARTED →
        (triggerResourceLoading tDetails l).1.loadingState = .IN_PROGRESS ∧
        (triggerResourceLoading tDetails l).1.resolverInvocations =
          l.resolverInvocations + (if tDetails.hasDependencyResolverFn then 1 else 0) ∧
        (triggerResourceLoading tDetails l).2 = .existing l.nextPromiseId ∧
        (triggerResourceLoading tDetails l).1.loadingPromise = some l.nextPromiseId) ∧
    (∀ (l : LoaderState) (id : Nat), l.loadingState = .IN_PROGRESS →
        l.loadingPromise = some id →
        triggerResourceLoading tDetails l = (l, .existing id)) ∧
    (∀ l : LoaderState,
        (l.loadingState = .COMPLETE ∨ l.loadingState = .FAILED) → l.loadingPromise = none →
        triggerResourceLoading tDetails l = (l, .freshResolved)) ∧
    (∀ evs : List LoaderEvent,
        (runLoaderEvents tDetails initialLoaderState evs).resolverInvocations ≤ 1) := by
  refine ⟨?_, ?_, ?_, ?_⟩
  · intro l hs
    unfold triggerResourceLoading
    simp only [hs, ne_eq, not_true_eq_false, if_false, reduceIte]
    cases hr : tDetails.hasDependencyResolverFn <;> simp
  · intro l id hs hp
    unfold triggerResourceLoading
    have : l.loadingState ≠ .NOT_STARTED := by rw [hs]; intro hc; cases hc
    simp only [ne_eq, this, not_false_eq_true, if_true, hp]
  · intro l hs hp
    unfold triggerResourceLoading
    have : l.loadingState ≠ .NOT_STARTED := by
      rcases hs with h | h <;> (rw [h]; intro hc; cases hc)
    simp only [ne_eq, this, not_false_eq_true, if_true, hp]
  · intro evs
    exact runLoaderEvents_invocations tDetails evs initialLoaderState ⟨by decide, fun _ => rfl⟩

/-- Witness for C3: two consecutive calls on a fresh block — the second call
returns the identical in-flight promise created by the first. -/
theorem triggerResourceLoading_idempotent_witness :
    (triggerResourceLoading tdPlain initialLoaderState).1.loadingState = .IN_PROGRESS ∧
      triggerResourceLoading tdPlain (triggerResourceLoading tdPlain initialLoaderState).1 =
        ((triggerResourceLoading tdPlain initialLoaderState).1, .existing 0) :=
  ⟨((triggerResourceLoading_idempotent tdPlain).1 initialLoaderState rfl).1,
    (triggerResourceLoading_idempotent tdPlain).2.1
      (triggerResourceLoading tdPlain initialLoaderState).1 0 (by decide) (by decide)⟩

/-- C2 counterexample: `Complete` is not terminal against `Error`.  On a
block with an error template, after `renderDeferBlockState` has applied the
`Complete` state, a request for the `Error` state passes the
`isValidStateChange` guard (2 < 3) and changes the visible state (and the
mounted view) to `Error`. -/
theorem complete_superseded_by_error :
    (renderDeferBlockState tdPlain .Complete true false
        initialRenderState).lDetails.deferBlockState = .St .Complete ∧
      (renderDeferBlockState tdPlain .Error true false
          (renderDeferBlockState tdPlain .Complete true false
            initialRenderState)).lDetails.deferBlockState = .St .Error ∧
      (renderDeferBlockState tdPlain .Error true false
          (renderDeferBlockState tdPlain .Complete true false
            initialRenderState)).log ≠
        (renderDeferBlockState tdPlain .Complete true false initialRenderState).log := by
  refine ⟨?_, ?_, ?_⟩ <;> decide

/-- C2 (amended): `Error` is terminal — once the rendered state is `Error`,
every later transition request is a no-op.  `Complete` is terminal against
every request except `Error`: once the rendered state is `Complete`, a
request for `Placeholder`, `Loading` or `Complete` is a no-op, and only an
`Error` request (ranked above `Complete` by the numeric order) can still
change the visible state. -/
theorem terminal_states_amended (tDetails : TDeferBlockDetails) (s : DeferBlockState)
    (isBrowser skip : Bool) (st : RenderState) :
    (st.lDetails.deferBlockState = .St .Error →
        renderDeferBlockState tDetails s isBrowser skip st = st) ∧
      (st.lDetails.deferBlockState = .St .Complete → s ≠ .Error →
        renderDeferBlockState tDetails s isBrowser skip st = st) := by
  constructor
  · intro h
    unfold renderDeferBlockState
    rw [h]
    cases s <;>
      simp [isValidStateChange, DeferState.toInt, DeferBlockState.toInt]
  · intro h hs
    unfold renderDeferBlockState
    rw [h]
    cases s <;>
      simp_all [isValidStateChange, DeferState.toInt, DeferBlockState.toInt]

/-- Witness for C2 (amended): a block whose rendered state is `Error`
ignores a `Complete` request. -/
theorem terminal_states_amended_witness :
    renderDeferBlockState tdPlain .Complete true false
        (renderDeferBlockState tdPlain .Error true false initialRenderState) =
      renderDeferBlockState tdPlain .Error true false initialRenderState :=
  (terminal_states_amended tdPlain .Complete true false
      (renderDeferBlockState tdPlain .Error true false initialRenderState)).1 (by decide)

/-- Helper: `applyDeferBlockState` either leaves the rendered state unchanged
or sets it to the requested state. -/
theorem applyDeferBlockState_state_cases (tDetails : TDeferBlockDetails)
    (s : DeferBlockState) (st : RenderState) :
    (applyDeferBlockState tDetails s st).lDetails.deferBlockState =
        st.lDetails.deferBlockState ∨
      (applyDeferBlockState tDetails s st).lDetails.deferBlockState = .St s := by
  unfold applyDeferBlockState
  cases getTemplateIndexForState s tDetails
  · exact Or.inl rfl
  · exact Or.inr rfl

/-- Helper: cancelling a loading-after phase does not touch the rendered
state. -/
theorem cancelLoadingAfterOnExit_state (s : DeferBlockState) (st : RenderState) :
    (cancelLoadingAfterOnExit s st).lDetails.deferBlockState =
      st.lDetails.deferBlockState := by
  unfold cancelLoadingAfterOnExit cancelTimer
  repeat' split
  all_goals rfl

/-- Helper: the minimum-duration step does not touch the rendered state. -/
theorem applyMinimumDuration_state (tDetails : TDeferBlockDetails) (s : DeferBlockState)
    (st : RenderState) :
    (applyMinimumDuration tDetails s st).lDetails.deferBlockState =
      st.lDetails.deferBlockState := by
  unfold applyMinimumDuration scheduleDeferBlockUpdate
  cases getMinimumDurationForState tDetails s <;> rfl

/-- Helper: entering the loading-after phase does not touch the rendered
state. -/
theorem enterLoadingAfterPhase_state (after : Int) (st : RenderState) :
    (enterLoadingAfterPhase after st).lDetails.deferBlockState =
      st.lDetails.deferBlockState := rfl

/-- Helper: the scheduling else-branch either leaves the rendered state
unchanged or sets it to the requested state. -/
theorem applySchedulingElseBranch_state_cases (tDetails : TDeferBlockDetails)
    (s : DeferBlockState) (st : RenderState) :
    (applySchedulingElseBranch tDetails s st).lDetails.deferBlockState =
        st.lDetails.deferBlockState ∨
      (applySchedulingElseBranch tDetails s st).lDetails.deferBlockState = .St s := by
  unfold applySchedulingElseBranch
  rcases applyDeferBlockState_state_cases tDetails s (cancelLoadingAfterOnExit s st) with h | h
  · exact Or.inl (by rw [applyMinimumDuration_state, h, cancelLoadingAfterOnExit_state])
  · exact Or.inr (by rw [applyMinimumDuration_state, h])

/-- Helper: the scheduling implementation either leaves the rendered state
unchanged or sets it to the requested state. -/
theorem applyDeferBlockStateWithScheduling_state_cases (tDetails : TDeferBlockDetails)
    (s : DeferBlockState) (st : RenderState) :
    (applyDeferBlockStateWithScheduling tDetails s st).lDetails.deferBlockState =
        st.lDetails.deferBlockState ∨
      (applyDeferBlockStateWithScheduling tDetails s st).lDetails.deferBlockState = .St s := by
  unfold applyDeferBlockStateWithScheduling
  split
  · dsimp only
    cases getLoadingBlockAfter tDetails with
    | some after =>
      dsimp only
      split
      · exact Or.inl (enterLoadingAfterPhase_state after _)
      · rcases applySchedulingElseBranch_state_cases tDetails s
            { st with lDetails := { st.lDetails with stateIsFrozenUntil := none } } with h | h
        · exact Or.inl h
        · exact Or.inr h
    | none =>
      rcases applySchedulingElseBranch_state_cases tDetails s
          { st with lDetails := { st.lDetails with stateIsFrozenUntil := none } } with h | h
      · exact Or.inl h
      · exact Or.inr h
  · exact Or.inl rfl

/-- Helper: `renderDeferBlockState` either leaves the rendered state
unchanged, or sets it to the requested state after the requested state
passed the `isValidStateChange` guard against the rendered state. -/
theorem renderDeferBlockState_state_cases (tDetails : TDeferBlockDetails)
    (s : DeferBlockState) (isBrowser skip : Bool) (st : RenderState) :
    (renderDeferBlockState tDetails s isBrowser skip st).lDetails.deferBlockState =
        st.lDetails.deferBlockState ∨
      ((renderDeferBlockState tDetails s isBrowser skip st).lDetails.deferBlockState = .St s ∧
        st.lDetails.deferBlockState.toInt < s.toInt) := by
  unfold renderDeferBlockState
  split
  · exact Or.inl rfl
  · split
    · rename_i hguard
      have hlt : st.lDetails.deferBlockState.toInt < s.toInt := by
        have hb := hguard
        simp only [Bool.and_eq_true] at hb
        simpa [isValidStateChange] using hb.1
      dsimp only
      split
      · rcases applyDeferBlockStateWithScheduling_state_cases tDetails s st with h | h
        · exact Or.inl h
        · exact Or.inr ⟨h, hlt⟩
      · rcases applyDeferBlockState_state_cases tDetails s st with h | h
        · exact Or.inl h
        · exact Or.inr ⟨h, hlt⟩
    · exact Or.inl rfl

/-- Helper: a single `renderDeferBlockState` call never decreases the
rendered state. -/
theorem renderDeferBlockState_mono (tDetails : TDeferBlockDetails)
    (s : DeferBlockState) (isBrowser skip : Bool) (st : RenderState) :
    st.lDetails.deferBlockState.toInt ≤
      (renderDeferBlockState tDetails s isBrowser skip st).lDetails.deferBlockState.toInt := by
  rcases renderDeferBlockState_state_cases tDetails s isBrowser skip st with h | ⟨h, hlt⟩
  · rw [h]
  · rw [h]
    exact le_of_lt hlt

/-- Helper: a single event delivery never decreases the rendered state. -/
theorem stepEvent_mono (tDetails : TDeferBlockDetails) (isBrowser : Bool) (st : RenderState)
    (e : DeferEvent) :
    st.lDetails.deferBlockState.toInt ≤
      (stepEvent tDetails isBrowser st e).lDetails.deferBlockState.toInt := by
  cases e with
  | request s time =>
    simp only [stepEvent]
    split
    · exact renderDeferBlockState_mono tDetails s isBrowser false { st with now := time }
    · exact le_refl _
  | fire id time =>
    simp only [stepEvent]
    split
    · unfold deferBlockUpdateCallback
      cases hnx : st.lDetails.nextDeferBlockState with
      | none => exact le_refl _
      | some s' =>
        simp only
        exact renderDeferBlockState_mono tDetails s' isBrowser false _
    · exact le_refl _

/-- Helper: the rendered state never decreases over an event sequence. -/
theorem runEvents_mono (tDetails : TDeferBlockDetails) (isBrowser : Bool)
    (evs : List DeferEvent) (st : RenderState) :
    st.lDetails.deferBlockState.toInt ≤
      (runEvents tDetails isBrowser st evs).lDetails.deferBlockState.toInt := by
  induction evs generalizing st with
  | nil => exact le_refl _
  | cons e es ih =>
    exact le_trans (stepEvent_mono tDetails isBrowser st e)
      (ih (stepEvent tDetails isBrowser st e))

/-- C1: the rendered state is non-decreasing — a single call never lowers
it, a call whose requested state fails the `isValidStateChange` guard
against the rendered state or the buffered next state is a no-op that leaves
the whole instance (rendered state included) unchanged, and over every
sequence of transition requests and timer callbacks the rendered state never
decreases. -/
theorem renderDeferBlockState_monotonic (tDetails : TDeferBlockDetails)
    (s : DeferBlockState) (isBrowser skip : Bool) (st : RenderState) :
    st.lDetails.deferBlockState.toInt ≤
        (renderDeferBlockState tDetails s isBrowser skip st).lDetails.deferBlockState.toInt ∧
      ((isValidStateChange st.lDetails.deferBlockState.toInt s.toInt &&
            isValidStateChange (bufferedStateAsInt st.lDetails) s.toInt) = false →
        renderDeferBlockState tDetails s isBrowser skip st = st) ∧
      ∀ evs : List DeferEvent,
        st.lDetails.deferBlockState.toInt ≤
          (runEvents tDetails isBrowser st evs).lDetails.deferBlockState.toInt := by
  refine ⟨renderDeferBlockState_mono tDetails s isBrowser skip st, ?_,
    fun evs => runEvents_mono tDetails isBrowser evs st⟩
  intro hguard
  unfold renderDeferBlockState
  split
  · rfl
  · rw [hguard]
    simp

/-- Witness for C1: a `Placeholder` request on a block already rendered as
`Complete` fails the guard and is a no-op. -/
theorem renderDeferBlockState_monotonic_witness :
    renderDeferBlockState tdPlain .Placeholder true false
        (renderDeferBlockState tdPlain .Complete true false initialRenderState) =
      renderDeferBlockState tdPlain .Complete true false initialRenderState :=
  (renderDeferBlockState_monotonic tdPlain .Placeholder true false
      (renderDeferBlockState tdPlain .Complete true false initialRenderState)).2.1 (by decide)

/-- Helper: `takeWhile` over an all-satisfying prefix. -/
theorem takeWhile_append_all {p : Char → Bool} (ds l : List Char)
    (h : ∀ c ∈ ds, p c = true) :
    (ds ++ l).takeWhile p = ds ++ l.takeWhile p := by
  induction ds with
  | nil => rfl
  | cons c cs ih =>
    have hc : p c = true := h c (List.mem_cons_self c cs)
    simp only [List.cons_append, List.takeWhile_cons, hc, if_true]
    rw [ih (fun x hx => h x (List.mem_cons_of_mem c hx))]

/-- Helper: `dropWhile` over an all-satisfying prefix. -/
theorem dropWhile_append_all {p : Char → Bool} (ds l : List Char)
    (h : ∀ c ∈ ds, p c = true) :
    (ds ++ l).dropWhile p = l.dropWhile p := by
  induction ds with
  | nil => rfl
  | cons c cs ih =>
    have hc : p c = true := h c (List.mem_cons_self c cs)
    simp only [List.cons_append, List.dropWhile_cons, hc, if_true]
    exact ih (fun x hx => h x (List.mem_cons_of_mem c hx))

/-- Helper: `TIME_PATTERN` on a digit string followed by a legal suffix. -/
theorem matchTimePattern_digits_suffix (ds suffix : List Char) (h1 : ds ≠ [])
    (h2 : ∀ c ∈ ds, isDigitChar c = true)
    (h3 : suffix = [] ∨ suffix = ['s'] ∨ suffix = ['m', 's']) :
    matchTimePattern (ds ++ suffix) = some (ds, [], suffix) := by
  obtain ⟨c, cs, rfl⟩ : ∃ c cs, ds = c :: cs := by
    cases ds with
    | nil => exact absurd rfl h1
    | cons c cs => exact ⟨c, cs, rfl⟩
  unfold matchTimePattern
  rw [takeWhile_append_all _ _ h2, dropWhile_append_all _ _ h2]
  rcases h3 with rfl | rfl | rfl <;>
    simp [show isDigitChar 's' = false from rfl, show isDigitChar 'm' = false from rfl]

/-- C6: `parseDeferredTime` maps a pure numeric string to that number of
milliseconds, multiplies an `s`-suffixed value by 1000, accepts an `ms`
suffix as milliseconds, and fails on any other suffix or on a string not
starting with a digit; in particular "500" yields 500, "2s" yields 2000 and
"2x" fails. -/
theorem parseDeferredTime_spec :
    (∀ ds : List Char, ds ≠ [] → (∀ c ∈ ds, isDigitChar c = true) →
        parseDeferredTime (String.mk ds) = some ((digitsToNat ds : ℚ)) ∧
        parseDeferredTime (String.mk (ds ++ ['s'])) = some ((digitsToNat ds : ℚ) * 1000) ∧
        parseDeferredTime (String.mk (ds ++ ['m', 's'])) = some ((digitsToNat ds : ℚ))) ∧
    (∀ (ds : List Char) (c : Char) (rest : List Char),
        (∀ x ∈ ds, isDigitChar x = true) → isDigitChar c = false → c ≠ '.' →
        c :: rest ≠ ['s'] → c :: rest ≠ ['m', 's'] →
        parseDeferredTime (String.mk (ds ++ c :: rest)) = none) ∧
    parseDeferredTime "500" = some 500 ∧
    parseDeferredTime "2s" = some 2000 ∧
    parseDeferredTime "2x" = none := by
  have hval : ∀ ds : List Char, timeValue ds [] = (digitsToNat ds : ℚ) := by
    intro ds
    simp [timeValue, digitsToNat]
  have hmain : ∀ ds : List Char, ds ≠ [] → (∀ c ∈ ds, isDigitChar c = true) →
      parseDeferredTime (String.mk ds) = some ((digitsToNat ds : ℚ)) ∧
      parseDeferredTime (String.mk (ds ++ ['s'])) = some ((digitsToNat ds : ℚ) * 1000) ∧
      parseDeferredTime (String.mk (ds ++ ['m', 's'])) = some ((digitsToNat ds : ℚ)) := by
    intro ds h1 h2
    refine ⟨?_, ?_, ?_⟩
    · have hm := matchTimePattern_digits_suffix ds [] h1 h2 (Or.inl rfl)
      rw [List.append_nil] at hm
      show parseDeferredTime ⟨ds⟩ = _
      unfold parseDeferredTime
      simp [String.toList, hm, hval]
    · have hm := matchTimePattern_digits_suffix ds ['s'] h1 h2 (Or.inr (Or.inl rfl))
      show parseDeferredTime ⟨ds ++ ['s']⟩ = _
      unfold parseDeferredTime
      simp [String.toList, hm, hval]
    · have hm := matchTimePattern_digits_suffix ds ['m', 's'] h1 h2 (Or.inr (Or.inr rfl))
      show parseDeferredTime ⟨ds ++ ['m', 's']⟩ = _
      unfold parseDeferredTime
      simp [String.toList, hm, hval]
  refine ⟨hmain, ?_, ?_, ?_, ?_⟩
  · intro ds c rest hds hc hdot hs hms
    show parseDeferredTime ⟨ds ++ c :: rest⟩ = none
    have hrest2 : (match c :: rest with
        | '.' :: r => r
        | r => r) = c :: rest := by
      split
      · rename_i r heq
        injection heq with heq1 heq2
        exact absurd heq1 hdot
      · rfl
    have hmatch : matchTimePattern (ds ++ c :: rest) = none := by
      unfold matchTimePattern
      rw [takeWhile_append_all _ _ hds, dropWhile_append_all _ _ hds]
      simp only [List.takeWhile_cons, List.dropWhile_cons, hc, Bool.false_eq_true, if_false,
        List.append_nil, hrest2]
      cases hds0 : ds.isEmpty
      · simp only [Bool.false_eq_true, if_false, hrest2]
        simp [hs, hms]
      · simp
    unfold parseDeferredTime
    rw [String.toList]
    simp [hmatch]
  · have h := (hmain ['5', '0', '0'] (by decide) (by decide)).1
    have : parseDeferredTime "500" = parseDeferredTime ⟨['5', '0', '0']⟩ := rfl
    rw [this, h, show digitsToNat ['5', '0', '0'] = 500 from by decide]
    norm_num
  · have h := (hmain ['2'] (by decide) (by decide)).2.1
    have : parseDeferredTime "2s" = parseDeferredTime ⟨['2'] ++ ['s']⟩ := rfl
    rw [this, h, show digitsToNat ['2'] = 2 from by decide]
    norm_num
  · rfl

/-- Witness for C6: `500` parses as pure milliseconds and `2x` fails. -/
theorem parseDeferredTime_spec_witness :
    parseDeferredTime (String.mk ['5', '0', '0']) = some ((digitsToNat ['5', '0', '0'] : ℚ)) ∧
      parseDeferredTime (String.mk (['2'] ++ 'x' :: [])) = none :=
  ⟨(parseDeferredTime_spec.1 ['5', '0', '0'] (by decide) (by decide)).1,
    parseDeferredTime_spec.2.1 ['2'] 'x' [] (by decide) (by decide) (by decide) (by decide)
      (by decide)⟩

/-- Helper: the first `triggerResourceLoading` call switches the loading
state to `IN_PROGRESS`. -/
theorem triggerResourceLoading_starts (tDetails : TDeferBlockDetails) (l : LoaderState)
    (h : l.loadingState = .NOT_STARTED) :
    (triggerResourceLoading tDetails l).1.loadingState = .IN_PROGRESS := by
  unfold triggerResourceLoading
  simp only [h, ne_eq, not_true_eq_false, if_false, reduceIte]
  cases tDetails.hasDependencyResolverFn <;> rfl

/-- Helper: starting resource loading does not touch the render state. -/
theorem triggerResourceLoadingSys_render (tDetails : TDeferBlockDetails) (sys : DeferSys) :
    (triggerResourceLoadingSys tDetails sys).render = sys.render := by
  unfold triggerResourceLoadingSys
  split <;> rfl

/-- Helper: triggering a block whose dependencies were never requested
renders the Loading state on its render state. -/
theorem triggerDeferBlock_render_notStarted (tDetails : TDeferBlockDetails) (sys : DeferSys)
    (h : sys.loader.loadingState = .NOT_STARTED) :
    (triggerDeferBlock false true tDetails sys).render =
      renderDeferBlockState tDetails .Loading true false sys.render := by
  unfold triggerDeferBlock
  have hs : (!shouldTriggerDeferBlock false true) = false := rfl
  rw [hs]
  simp only [Bool.false_eq_true, if_false]
  dsimp only [invokeAllTriggerCleanupFns]
  rw [h]
  split
  all_goals
    first
    | (split <;> simp [triggerResourceLoadingSys_render])
    | simp_all

/-- Helper: without timing configuration, a passing guard makes
`renderDeferBlockState` use the plain `applyDeferBlockState`. -/
theorem renderDeferBlockState_plain (tDetails : TDeferBlockDetails) (s : DeferBlockState)
    (st : RenderState) (hdes : st.destroyed = false)
    (hguard : (isValidStateChange st.lDetails.deferBlockState.toInt s.toInt &&
      isValidStateChange (bufferedStateAsInt st.lDetails) s.toInt) = true)
    (hcfgL : tDetails.loadingBlockConfig = none)
    (hcfgP : tDetails.placeholderBlockConfig = none) :
    renderDeferBlockState tDetails s true false st = applyDeferBlockState tDetails s st := by
  unfold renderDeferBlockState
  rw [hdes]
  simp only [Bool.false_eq_true, if_false, hguard, if_true]
  have hns : ((getLoadingBlockAfter tDetails).isSome ||
      (getMinimumDurationForState tDetails .Loading).isSome ||
      truthyNum (getMinimumDurationForState tDetails .Placeholder)) = false := by
    cases s <;>
      simp [getLoadingBlockAfter, getMinimumDurationForState, truthyNum, hcfgL, hcfgP]
  simp only [hns]
  simp

/-- Helper: a truthy `when` value in the initial or placeholder state
triggers the defer block. -/
theorem deferWhen_true_triggers (tDetails : TDeferBlockDetails) (sys : DeferSys)
    (h : sys.render.lDetails.deferBlockState = .Initial ∨
      sys.render.lDetails.deferBlockState = .St .Placeholder) :
    deferWhen true false true tDetails sys = triggerDeferBlock false true tDetails sys := by
  unfold deferWhen
  rcases h with h | h <;> simp [h]

/-- Helper: a falsy `when` value in the initial state renders the
placeholder. -/
theorem deferWhen_false_initial (tDetails : TDeferBlockDetails) (sys : DeferSys)
    (h : sys.render.lDetails.deferBlockState = .Initial) :
    deferWhen false false true tDetails sys = renderPlaceholder tDetails true sys := by
  unfold deferWhen
  simp [h]

/-- Helper: `applyDeferBlockState` on a block with the requested template. -/
theorem applyDeferBlockState_eq_of_template (tDetails : TDeferBlockDetails)
    (s : DeferBlockState) (st : RenderState) (i : Nat)
    (h : getTemplateIndexForState s tDetails = some i) :
    applyDeferBlockState tDetails s st =
      { st with
        lDetails := { st.lDetails with deferBlockState := .St s }
        log := st.log ++ [.removeView st.now, .addView s st.now] } := by
  unfold applyDeferBlockState
  rw [h]

/-- C7: for a block with a `when` trigger (in browser context, no manual
behavior, no timing config): a value turning true while the rendered state
is Initial triggers the block and transitions it directly to Loading,
mounting only the loading view (the placeholder is never rendered); turning
true while the rendered state is Placeholder likewise transitions to
Loading; and turning false while Initial renders the placeholder when a
placeholder template is defined. -/
theorem deferWhen_transitions :
    (∀ (tDetails : TDeferBlockDetails) (li : Nat) (sys : DeferSys),
        tDetails.loadingTmplIndex = some li → tDetails.loadingBlockConfig = none →
        tDetails.placeholderBlockConfig = none →
        sys.loader.loadingState = .NOT_STARTED →
        sys.render.destroyed = false →
        sys.render.lDetails.deferBlockState = .Initial →
        sys.render.lDetails.nextDeferBlockState = none →
        (deferWhen true false true tDetails sys).render.lDetails.deferBlockState =
            .St .Loading ∧
          (deferWhen true false true tDetails sys).render.log =
            sys.render.log ++
              [.removeView sys.render.now, .addView .Loading sys.render.now]) ∧
    (∀ (tDetails : TDeferBlockDetails) (li : Nat) (sys : DeferSys),
        tDetails.loadingTmplIndex = some li → tDetails.loadingBlockConfig = none →
        tDetails.placeholderBlockConfig = none →
        sys.loader.loadingState = .NOT_STARTED →
        sys.render.destroyed = false →
        sys.render.lDetails.deferBlockState = .St .Placeholder →
        sys.render.lDetails.nextDeferBlockState = none →
        (deferWhen true false true tDetails sys).render.lDetails.deferBlockState =
          .St .Loading) ∧
    (∀ (tDetails : TDeferBlockDetails) (pi : Nat) (sys : DeferSys),
        tDetails.placeholderTmplIndex = some pi → tDetails.loadingBlockConfig = none →
        tDetails.placeholderBlockConfig = none →
        sys.render.destroyed = false →
        sys.render.lDetails.deferBlockState = .Initial →
        sys.render.lDetails.nextDeferBlockState = none →
        (deferWhen false false true tDetails sys).render.lDetails.deferBlockState =
          .St .Placeholder) := by
  refine ⟨?_, ?_, ?_⟩
  · intro td li sys hL hcfgL hcfgP hload hdes hst hnext
    have hguard : (isValidStateChange sys.render.lDetails.deferBlockState.toInt
        DeferBlockState.Loading.toInt &&
        isValidStateChange (bufferedStateAsInt sys.render.lDetails)
          DeferBlockState.Loading.toInt) = true := by
      simp [isValidStateChange, bufferedStateAsInt, hnext, hst, DeferState.toInt,
        DeferBlockState.toInt]
    rw [deferWhen_true_triggers td sys (Or.inl hst),
      triggerDeferBlock_render_notStarted td sys hload,
      renderDeferBlockState_plain td .Loading sys.render hdes hguard hcfgL hcfgP,
      applyDeferBlockState_eq_of_template td .Loading sys.render li
        (by simpa [getTemplateIndexForState] using hL)]
    exact ⟨rfl, rfl⟩
  · intro td li sys hL hcfgL hcfgP hload hdes hst hnext
    have hguard : (isValidStateChange sys.render.lDetails.deferBlockState.toInt
        DeferBlockState.Loading.toInt &&
        isValidStateChange (bufferedStateAsInt sys.render.lDetails)
          DeferBlockState.Loading.toInt) = true := by
      simp [isValidStateChange, bufferedStateAsInt, hnext, hst, DeferState.toInt,
        DeferBlockState.toInt]
    rw [deferWhen_true_triggers td sys (Or.inr hst),
      triggerDeferBlock_render_notStarted td sys hload,
      renderDeferBlockState_plain td .Loading sys.render hdes hguard hcfgL hcfgP,
      applyDeferBlockState_eq_of_template td .Loading sys.render li
        (by simpa [getTemplateIndexForState] using hL)]
  · intro td pi sys hP hcfgL hcfgP hdes hst hnext
    have hguard : (isValidStateChange sys.render.lDetails.deferBlockState.toInt
        DeferBlockState.Placeholder.toInt &&
        isValidStateChange (bufferedStateAsInt sys.render.lDetails)
          DeferBlockState.Placeholder.toInt) = true := by
      simp [isValidStateChange, bufferedStateAsInt, hnext, hst, DeferState.toInt,
        DeferBlockState.toInt]
    rw [deferWhen_false_initial td sys hst]
    show (renderDeferBlockState td .Placeholder true false sys.render).lDetails.deferBlockState =
      .St .Placeholder
    rw [renderDeferBlockState_plain td .Placeholder sys.render hdes hguard hcfgL hcfgP,
      applyDeferBlockState_eq_of_template td .Placeholder sys.render pi
        (by simpa [getTemplateIndexForState] using hP)]

/-- Witness for C7: a fresh instance of `tdPlain` with a `when` value turning
true goes straight to Loading. -/
theorem deferWhen_transitions_witness :
    (deferWhen true false true tdPlain
        { render := initialRenderState
          loader := initialLoaderState
          regularCleanupFns := 1
          prefetchCleanupFns := 0
          scheduleFnCalls := 0
          resultSubscribed := false }).render.lDetails.deferBlockState = .St .Loading :=
  (deferWhen_transitions.1 tdPlain 2
      { render := initialRenderState
        loader := initialLoaderState
        regularCleanupFns := 1
        prefetchCleanupFns := 0
        scheduleFnCalls := 0
        resultSubscribed := false }
      rfl rfl rfl rfl rfl rfl rfl).1

/-- Helper: states without a minimum duration make `applyMinimumDuration` the
identity. -/
theorem applyMinimumDuration_none (tDetails : TDeferBlockDetails) (s : DeferBlockState)
    (st : RenderState) (h : getMinimumDurationForState tDetails s = none) :
    applyMinimumDuration tDetails s st = st := by
  unfold applyMinimumDuration
  rw [h]

/-- Helper: the invariant is monotone in the set of request times. -/
theorem LoadingAfterInv.mono {d : Int} {R R' : List Int} {st : RenderState}
    (h : ∀ x ∈ R, x ∈ R') (hInv : LoadingAfterInv d R st) : LoadingAfterInv d R' st := by
  obtain ⟨hm, ht, hnx, hcl, hfz⟩ := hInv
  refine ⟨?_, ?_, hnx, ?_, hfz⟩
  · intro t hmem
    obtain ⟨t0, ht0, hle⟩ := hm t hmem
    exact ⟨t0, h t0 ht0, hle⟩
  · intro tm htm
    obtain ⟨⟨t0, ht0, hle⟩, h2, h3, h4⟩ := ht tm htm
    exact ⟨⟨t0, h t0 ht0, hle⟩, h2, h3, h4⟩
  · intro id hid
    rcases hcl id hid with hp | ⟨t0, ht0, hle⟩
    · exact Or.inl hp
    · exact Or.inr ⟨t0, h t0 ht0, hle⟩

/-- Helper: the invariant survives moving the clock forward. -/
theorem LoadingAfterInv.now_mono {d : Int} {R : List Int} {st : RenderState} {time : Int}
    (h : st.now ≤ time) (hInv : LoadingAfterInv d R st) :
    LoadingAfterInv d R { st with now := time } := by
  obtain ⟨hm, ht, hnx, hcl, hfz⟩ := hInv
  refine ⟨hm, ht, hnx, ?_, hfz⟩
  intro id hid
  rcases hcl id hid with hp | ⟨t0, ht0, hle⟩
  · exact Or.inl hp
  · exact Or.inr ⟨t0, ht0, le_trans hle h⟩

/-- Helper: `applyDeferBlockState` preserves the loading-after invariant when
no timer is pending, nothing is buffered, and a Loading application is
covered by an elapsed request. -/
theorem applyDeferBlockState_preserves_inv (tDetails : TDeferBlockDetails) (d : Int)
    (R : List Int) (s : DeferBlockState) (st : RenderState)
    (hInv : LoadingAfterInv d R st)
    (htimers : st.timers = [])
    (hnx : st.lDetails.nextDeferBlockState = none)
    (hmount : s = .Loading → ∃ t0 ∈ R, t0 + d ≤ st.now) :
    LoadingAfterInv d R (applyDeferBlockState tDetails s st) := by
  unfold applyDeferBlockState
  cases hti : getTemplateIndexForState s tDetails with
  | none => exact hInv
  | some i =>
    obtain ⟨hm, ht, hnxI, hcl, hfz⟩ := hInv
    refine ⟨?_, ?_, ?_, ?_, hfz⟩
    · intro t hmem
      rcases List.mem_append.mp hmem with h | h
      · exact hm t h
      · simp only [List.mem_cons, List.not_mem_nil, or_false] at h
        rcases h with h | h
        · cases h
        · cases h
          exact hmount rfl
    · intro tm htm
      rw [show ({ st with
          lDetails := { st.lDetails with deferBlockState := DeferState.St s }
          log := st.log ++ [.removeView st.now, .addView s st.now] } : RenderState).timers =
          st.timers from rfl, htimers] at htm
      cases htm
    · intro s' h
      rw [show ({ st with
          lDetails := { st.lDetails with deferBlockState := DeferState.St s }
          log := st.log ++ [.removeView st.now, .addView s st.now] } :
            RenderState).lDetails.nextDeferBlockState =
          st.lDetails.nextDeferBlockState from rfl, hnx] at h
      cases h
    · intro id h
      rcases hcl id h with hp | hb
      · rw [htimers] at hp
        obtain ⟨tm, htm, _⟩ := hp
        cases htm
      · exact Or.inr hb

/-- Helper: the scheduling else-branch preserves the loading-after invariant
(when the block has an `after` config, no minimum durations, the buffered
guard held, and a Loading request only reaches the else-branch inside a
loading-after phase). -/
theorem applySchedulingElseBranch_preserves_inv (tDetails : TDeferBlockDetails) (d : Int)
    (R : List Int) (s : DeferBlockState) (st : RenderState)
    (hmL : getMinimumDurationForState tDetails .Loading = none)
    (hmP : getMinimumDurationForState tDetails .Placeholder = none)
    (hInv : LoadingAfterInv d R st)
    (hguard : isValidStateChange (bufferedStateAsInt st.lDetails) s.toInt = true)
    (hcase : s = .Loading → st.lDetails.loadingAfterCleanupFn ≠ none) :
    LoadingAfterInv d R (applySchedulingElseBranch tDetails s st) := by
  obtain ⟨hm, ht, hnx, hcl, hfz⟩ := hInv
  have hmin : getMinimumDurationForState tDetails s = none := by
    cases s
    · exact hmP
    · exact hmL
    · rfl
    · rfl
  unfold applySchedulingElseBranch
  rw [applyMinimumDuration_none tDetails s _ hmin]
  cases hcl' : st.lDetails.loadingAfterCleanupFn with
  | some id =>
    by_cases hgt : DeferBlockState.toInt .Loading < s.toInt
    · -- moving past Loading: the pending phase is cancelled
      have hC : cancelLoadingAfterOnExit s st =
          { st with
            timers := st.timers.filter (fun t => t.id ≠ id)
            lDetails :=
              { st.lDetails with loadingAfterCleanupFn := none, nextDeferBlockState := none } } := by
        unfold cancelLoadingAfterOnExit cancelTimer
        rw [hcl']
        simp [hgt]
      rw [hC]
      have hsL : s ≠ .Loading := by
        intro hseq
        rw [hseq] at hgt
        exact absurd hgt (lt_irrefl _)
      refine applyDeferBlockState_preserves_inv tDetails d R s _ ⟨?_, ?_, ?_, ?_, hfz⟩
          ?_ rfl (fun hseq => absurd hseq hsL)
      · exact hm
      · intro tm htm
        rw [show ({ st with
            timers := st.timers.filter (fun t => t.id ≠ id)
            lDetails := { st.lDetails with
              loadingAfterCleanupFn := none, nextDeferBlockState := none } } :
              RenderState).timers = st.timers.filter (fun t => t.id ≠ id) from rfl] at htm
        obtain ⟨htmem, hpred⟩ := List.mem_filter.mp htm
        have := (ht tm htmem).2.1
        rw [hcl'] at this
        injection this with hideq
        simp [hideq] at hpred
      · intro s' h
        cases h
      · intro id' h
        cases h
      · show List.filter _ st.timers = []
        rw [List.eq_nil_iff_forall_not_mem]
        intro tm htm
        obtain ⟨htmem, hpred⟩ := List.mem_filter.mp htm
        have := (ht tm htmem).2.1
        rw [hcl'] at this
        injection this with hideq
        simp [hideq] at hpred
    · -- s is Loading or Placeholder: no cancellation, the stale phase stays
      have hC : cancelLoadingAfterOnExit s st = st := by
        unfold cancelLoadingAfterOnExit
        rw [hcl']
        simp [hgt]
      rw [hC]
      have htimers : st.timers = [] := by
        rw [List.eq_nil_iff_forall_not_mem]
        intro tm htm
        have hnext := (ht tm htm).2.2.1
        have hbuf : bufferedStateAsInt st.lDetails = DeferBlockState.toInt .Loading := by
          unfold bufferedStateAsInt
          rw [hnext]
        rw [isValidStateChange, hbuf] at hguard
        exact absurd (of_decide_eq_true hguard) hgt
      have hnone : st.lDetails.nextDeferBlockState = none := by
        cases hnx2 : st.lDetails.nextDeferBlockState with
        | none => rfl
        | some s' =>
          have hL := (hnx s' hnx2).1
          have hbuf : bufferedStateAsInt st.lDetails = DeferBlockState.toInt .Loading := by
            unfold bufferedStateAsInt
            rw [hnx2, hL]
          rw [isValidStateChange, hbuf] at hguard
          exact absurd (of_decide_eq_true hguard) hgt
      refine applyDeferBlockState_preserves_inv tDetails d R s st
          ⟨hm, ht, hnx, hcl, hfz⟩ htimers hnone ?_
      intro hseq
      rcases hcl id hcl' with hp | hb
      · rw [htimers] at hp
        obtain ⟨tm, htm, _⟩ := hp
        cases htm
      · exact hb
  | none =>
    have hC : cancelLoadingAfterOnExit s st = st := by
      unfold cancelLoadingAfterOnExit
      rw [hcl']
    rw [hC]
    have htimers : st.timers = [] := by
      rw [List.eq_nil_iff_forall_not_mem]
      intro tm htm
      have := (ht tm htm).2.1
      rw [hcl'] at this
      cases this
    have hnone : st.lDetails.nextDeferBlockState = none := by
      cases hnx2 : st.lDetails.nextDeferBlockState with
      | none => rfl
      | some s' =>
        have := (hnx s' hnx2).2
        exact absurd hcl' this
    refine applyDeferBlockState_preserves_inv tDetails d R s st
        ⟨hm, ht, hnx, hcl, hfz⟩ htimers hnone ?_
    intro hseq
    exact absurd hcl' (hcase hseq)

/-- Helper: `renderDeferBlockState` preserves the loading-after invariant on
the browser for a block with an `after` config and no minimum durations,
when a Loading request happens at a recorded time or inside a loading-after
phase. -/
theorem renderDeferBlockState_preserves_inv (tDetails : TDeferBlockDetails) (d : Int)
    (R : List Int) (s : DeferBlockState) (st : RenderState)
    (hA : getLoadingBlockAfter tDetails = some d)
    (hmL : getMinimumDurationForState tDetails .Loading = none)
    (hmP : getMinimumDurationForState tDetails .Placeholder = none)
    (hInv : LoadingAfterInv d R st)
    (hs : s = .Loading → st.now ∈ R ∨ st.lDetails.loadingAfterCleanupFn ≠ none) :
    LoadingAfterInv d R (renderDeferBlockState tDetails s true false st) := by
  have hst1 : ({ st with
      lDetails := { st.lDetails with stateIsFrozenUntil := none } } : RenderState) = st := by
    obtain ⟨⟨a, b, c, e⟩, f, g, h, i, j⟩ := st
    obtain rfl : c = none := hInv.frozen
    rfl
  unfold renderDeferBlockState
  split
  · exact hInv
  · split
    · rename_i hdes hguard
      have hg2 : isValidStateChange (bufferedStateAsInt st.lDetails) s.toInt = true := by
        have hb := hguard
        simp only [Bool.and_eq_true] at hb
        exact hb.2
      have hns : (!false && true &&
          ((getLoadingBlockAfter tDetails).isSome ||
            (getMinimumDurationForState tDetails .Loading).isSome ||
            truthyNum (getMinimumDurationForState tDetails .Placeholder))) = true := by
        rw [hA]
        rfl
      dsimp only
      rw [hns]
      simp only [if_true]
      unfold applyDeferBlockStateWithScheduling
      have hnf : notFrozen st = true := by
        unfold notFrozen
        rw [hInv.frozen]
      rw [hnf]
      simp only [if_true, hst1, hA]
      split
      · -- loading-after phase entered
        rename_i hcond
        simp only [Bool.and_eq_true, decide_eq_true_eq] at hcond
        obtain ⟨hsL, hclb⟩ := hcond
        subst hsL
        have hclnone : st.lDetails.loadingAfterCleanupFn = none := by
          cases hopt : st.lDetails.loadingAfterCleanupFn with
          | none => rfl
          | some id =>
            rw [hopt] at hclb
            simp at hclb
        obtain ⟨hm, ht, hnx, hcl, hfz⟩ := hInv
        have htimers : st.timers = [] := by
          rw [List.eq_nil_iff_forall_not_mem]
          intro tm htm
          have := (ht tm htm).2.1
          rw [hclnone] at this
          cases this
        have hnowR : st.now ∈ R := by
          rcases hs rfl with h | h
          · exact h
          · exact absurd hclnone h
        refine ⟨?_, ?_, ?_, ?_, ?_⟩
        · intro t hmem
          exact hm t hmem
        · intro tm htm
          have htm2 : tm ∈ st.timers ++ [⟨st.nextTimerId, st.now + d⟩] := htm
          rw [htimers, List.nil_append, List.mem_singleton] at htm2
          subst htm2
          refine ⟨⟨st.now, hnowR, le_refl _⟩, rfl, rfl, ?_⟩
          intro tm' htm'
          have htm'2 : tm' ∈ st.timers ++ [⟨st.nextTimerId, st.now + d⟩] := htm'
          rw [htimers, List.nil_append, List.mem_singleton] at htm'2
          exact htm'2
        · intro s' h
          have h2 : some DeferBlockState.Loading = some s' := h
          injection h2 with h3
          exact ⟨h3.symm, fun hcc => Option.noConfusion hcc⟩
        · intro id h
          have h2 : some st.nextTimerId = some id := h
          injection h2 with h3
          exact Or.inl ⟨⟨st.nextTimerId, st.now + d⟩,
            List.mem_append_right _ (List.mem_singleton_self _), h3⟩
        · exact hfz
      · -- else branch
        rename_i hcond
        refine applySchedulingElseBranch_preserves_inv tDetails d R s st hmL hmP hInv hg2 ?_
        intro hsL
        subst hsL
        intro hclnone
        exact hcond (by simp [hclnone])
    · exact hInv

/-- Helper: one event delivery preserves the loading-after invariant,
extending the recorded request times with the event's Loading request. -/
theorem stepEvent_preserves_inv (tDetails : TDeferBlockDetails) (d : Int) (R : List Int)
    (st : RenderState) (e : DeferEvent)
    (hA : getLoadingBlockAfter tDetails = some d)
    (hmL : getMinimumDurationForState tDetails .Loading = none)
    (hmP : getMinimumDurationForState tDetails .Placeholder = none)
    (hInv : LoadingAfterInv d R st) :
    LoadingAfterInv d (R ++ eventLoadingTimes e) (stepEvent tDetails true st e) := by
  have hmono : ∀ x ∈ R, x ∈ R ++ eventLoadingTimes e :=
    fun x hx => List.mem_append_left _ hx
  cases e with
  | request s time =>
    simp only [stepEvent]
    split
    · rename_i htime
      refine renderDeferBlockState_preserves_inv tDetails d _ s _ hA hmL hmP
        (LoadingAfterInv.mono hmono (LoadingAfterInv.now_mono htime hInv)) ?_
      intro hsL
      subst hsL
      left
      exact List.mem_append_right _ (List.mem_singleton_self _)
    · exact LoadingAfterInv.mono hmono hInv
  | fire id time =>
    simp only [stepEvent]
    split
    · rename_i hcond
      simp only [Bool.and_eq_true, decide_eq_true_eq, List.any_eq_true, beq_iff_eq] at hcond
      obtain ⟨htle, tm, htm, htmid, htmdue⟩ := hcond
      obtain ⟨hm, ht, hnx, hcl, hfz⟩ := hInv
      obtain ⟨⟨t0, ht0R, ht0le⟩, hcleq, hnexteq, huniq⟩ := ht tm htm
      have hfilter : st.timers.filter (fun t => t.id ≠ id) = [] := by
        rw [List.eq_nil_iff_forall_not_mem]
        intro tm' htm'
        obtain ⟨hmem, hpred⟩ := List.mem_filter.mp htm'
        have heq := huniq tm' hmem
        subst heq
        rw [htmid] at hpred
        simp at hpred
      unfold deferBlockUpdateCallback
      dsimp only
      rw [hnexteq]
      refine LoadingAfterInv.mono hmono
        (renderDeferBlockState_preserves_inv tDetails d R .Loading _ hA hmL hmP
          ⟨?_, ?_, ?_, ?_, rfl⟩ ?_)
      · exact hm
      · intro tm' htm'
        have htm'2 : tm' ∈ st.timers.filter (fun t => t.id ≠ id) := htm'
        rw [hfilter] at htm'2
        cases htm'2
      · intro s' h
        cases h
      · intro id' h
        have h2 : st.lDetails.loadingAfterCleanupFn = some id' := h
        right
        refine ⟨t0, ht0R, ?_⟩
        exact le_trans ht0le htmdue
      · intro _
        right
        intro hcc
        have hcc2 : st.lDetails.loadingAfterCleanupFn = none := hcc
        rw [hcleq] at hcc2
        cases hcc2
    · exact LoadingAfterInv.mono hmono hInv

/-- Helper: running an event sequence preserves the loading-after invariant,
extending the recorded request times with the sequence's Loading requests. -/
theorem runEvents_preserves_inv (tDetails : TDeferBlockDetails) (d : Int)
    (hA : getLoadingBlockAfter tDetails = some d)
    (hmL : getMinimumDurationForState tDetails .Loading = none)
    (hmP : getMinimumDurationForState tDetails .Placeholder = none)
    (evs : List DeferEvent) :
    ∀ (R : List Int) (st : RenderState), LoadingAfterInv d R st →
      LoadingAfterInv d (R ++ loadingRequestTimes evs) (runEvents tDetails true st evs) := by
  induction evs with
  | nil =>
    intro R st hInv
    exact LoadingAfterInv.mono (fun x hx => List.mem_append_left _ hx) hInv
  | cons e es ih =>
    intro R st hInv
    have hstep := stepEvent_preserves_inv tDetails d R st e hA hmL hmP hInv
    have hrun := ih (R ++ eventLoadingTimes e) (stepEvent tDetails true st e) hstep
    have hcons : loadingRequestTimes (e :: es) =
        eventLoadingTimes e ++ loadingRequestTimes es := by
      cases e with
      | fire id t => rfl
      | request s t => cases s <;> rfl
    show LoadingAfterInv d (R ++ loadingRequestTimes (e :: es)) _
    rw [hcons, ← List.append_assoc]
    exact hrun

/-- Helper: `applyDeferBlockState` leaves the buffer, cleanup and freeze
fields untouched. -/
theorem applyDeferBlockState_lfields (tDetails : TDeferBlockDetails) (s : DeferBlockState)
    (st : RenderState) :
    (applyDeferBlockState tDetails s st).lDetails.nextDeferBlockState =
        st.lDetails.nextDeferBlockState ∧
      (applyDeferBlockState tDetails s st).lDetails.loadingAfterCleanupFn =
        st.lDetails.loadingAfterCleanupFn ∧
      (applyDeferBlockState tDetails s st).lDetails.stateIsFrozenUntil =
        st.lDetails.stateIsFrozenUntil := by
  unfold applyDeferBlockState
  cases getTemplateIndexForState s tDetails <;> exact ⟨rfl, rfl, rfl⟩

/-- C5 counterexample: with `@placeholder(minimum 10ms)` and
`@loading(after 100ms)`, the placeholder's pending minimum-duration timer
can fire right after a Loading request was buffered; its callback then
applies the buffered Loading state immediately, so the loading sub-view is
mounted at time 10 even though the only Loading request happened at time 10
and the configured delay is 100. -/
theorem loading_after_race_counterexample :
    getLoadingBlockAfter tdRace = some 100 ∧
      loadingRequestTimes raceEvents = [10] ∧
      RenderAction.addView .Loading 10 ∈ (runEvents tdRace true initialRenderState raceEvents).log ∧
      (10 : Int) < 10 + 100 := by
  refine ⟨?_, ?_, ?_, ?_⟩ <;> decide

/-- C5 (amended): on a block whose static config has `after = d` for the
Loading state (browser, no `skipTimerScheduling`): (1) a Loading request
outside a loading-after phase with no freeze in effect is not applied
synchronously — the rendered state and the mount log are unchanged, the
request is buffered in `NEXT_DEFER_BLOCK_STATE` and an update timer due
`d` after the request is armed, its cleanup stored; (2) when a state
greater than Loading passes the transition guard while that timer is
pending, the timer's cleanup is invoked (the timer is cancelled) and the
buffered Loading state is discarded; and (3) provided the block configures
no minimum duration for its placeholder or loading sub-views, the loading
sub-view is never mounted earlier than `d` after a Loading request (with a
minimum duration configured, a pending minimum-duration timer firing after
the buffering can apply the buffered Loading state earlier, as the
counterexample shows). -/
theorem loading_after_scheduling :
    (∀ (tDetails : TDeferBlockDetails) (d : Int) (st : RenderState),
        getLoadingBlockAfter tDetails = some d →
        st.destroyed = false →
        st.lDetails.loadingAfterCleanupFn = none →
        st.lDetails.stateIsFrozenUntil = none →
        st.lDetails.deferBlockState.toInt < DeferBlockState.toInt .Loading →
        bufferedStateAsInt st.lDetails < DeferBlockState.toInt .Loading →
        (renderDeferBlockState tDetails .Loading true false st).lDetails.deferBlockState =
            st.lDetails.deferBlockState ∧
          (renderDeferBlockState tDetails .Loading true false st).log = st.log ∧
          (renderDeferBlockState tDetails .Loading true false st).lDetails.nextDeferBlockState =
            some .Loading ∧
          (renderDeferBlockState tDetails .Loading true false st).lDetails.loadingAfterCleanupFn =
            some st.nextTimerId ∧
          (renderDeferBlockState tDetails .Loading true false st).timers =
            st.timers ++ [⟨st.nextTimerId, st.now + d⟩]) ∧
    (∀ (tDetails : TDeferBlockDetails) (d : Int) (s : DeferBlockState) (st : RenderState)
        (id : Nat),
        getLoadingBlockAfter tDetails = some d →
        st.destroyed = false →
        st.lDetails.stateIsFrozenUntil = none →
        st.lDetails.loadingAfterCleanupFn = some id →
        (s = .Complete ∨ s = .Error) →
        st.lDetails.deferBlockState.toInt < s.toInt →
        st.lDetails.nextDeferBlockState = some .Loading →
        (∀ tm ∈ (renderDeferBlockState tDetails s true false st).timers, tm.id ≠ id) ∧
          (renderDeferBlockState tDetails s true false st).lDetails.loadingAfterCleanupFn =
            none ∧
          (renderDeferBlockState tDetails s true false st).lDetails.nextDeferBlockState =
            none) ∧
    (∀ (tDetails : TDeferBlockDetails) (d : Int) (evs : List DeferEvent) (st0 : RenderState),
        getLoadingBlockAfter tDetails = some d →
        getMinimumDurationForState tDetails .Loading = none →
        getMinimumDurationForState tDetails .Placeholder = none →
        st0.timers = [] → st0.lDetails.nextDeferBlockState = none →
        st0.lDetails.loadingAfterCleanupFn = none →
        st0.lDetails.stateIsFrozenUntil = none → st0.log = [] →
        ∀ t : Int, RenderAction.addView .Loading t ∈ (runEvents tDetails true st0 evs).log →
          ∃ t0 ∈ loadingRequestTimes evs, t0 + d ≤ t) := by
  refine ⟨?_, ?_, ?_⟩
  · intro td d st hA hdes hcl hfz hst hbuf
    have hst1 : ({ st with
        lDetails := { st.lDetails with stateIsFrozenUntil := none } } : RenderState) = st := by
      obtain ⟨⟨a, b, c, e⟩, f, g, h, i, j⟩ := st
      obtain rfl : c = none := hfz
      rfl
    have hguard : (isValidStateChange st.lDetails.deferBlockState.toInt
        (DeferBlockState.toInt .Loading) &&
        isValidStateChange (bufferedStateAsInt st.lDetails)
          (DeferBlockState.toInt .Loading)) = true := by
      simp [isValidStateChange, hst, hbuf]
    have hns : (!false && true &&
        ((getLoadingBlockAfter td).isSome ||
          (getMinimumDurationForState td .Loading).isSome ||
          truthyNum (getMinimumDurationForState td .Placeholder))) = true := by
      rw [hA]
      rfl
    unfold renderDeferBlockState
    rw [hdes]
    simp only [Bool.false_eq_true, if_false, hguard, if_true]
    rw [hns]
    simp only [if_true]
    unfold applyDeferBlockStateWithScheduling
    have hnf : notFrozen st = true := by
      unfold notFrozen
      rw [hfz]
    rw [hnf]
    simp only [if_true, hst1, hA]
    rw [hcl]
    rw [if_pos (show (decide True && !(none : Option Nat).isSome) = true from rfl)]
    exact ⟨rfl, rfl, rfl, rfl, rfl⟩
  · intro td d s st id hA hdes hfz hcl hse hst hnext
    have hst1 : ({ st with
        lDetails := { st.lDetails with stateIsFrozenUntil := none } } : RenderState) = st := by
      obtain ⟨⟨a, b, c, e⟩, f, g, h, i, j⟩ := st
      obtain rfl : c = none := hfz
      rfl
    have hgt : DeferBlockState.toInt .Loading < s.toInt := by
      rcases hse with rfl | rfl <;> decide
    have hguard : (isValidStateChange st.lDetails.deferBlockState.toInt s.toInt &&
        isValidStateChange (bufferedStateAsInt st.lDetails) s.toInt) = true := by
      have hbuf : bufferedStateAsInt st.lDetails = 1 := by
        unfold bufferedStateAsInt
        rw [hnext]
        rfl
      simp [isValidStateChange, hst, hbuf]
      rcases hse with rfl | rfl <;> decide
    have hns : (!false && true &&
        ((getLoadingBlockAfter td).isSome ||
          (getMinimumDurationForState td .Loading).isSome ||
          truthyNum (getMinimumDurationForState td .Placeholder))) = true := by
      rw [hA]
      rfl
    have hsL : (decide (s = DeferBlockState.Loading) &&
        !st.lDetails.loadingAfterCleanupFn.isSome) = false := by
      have : s ≠ .Loading := by rcases hse with rfl | rfl <;> decide
      simp [this]
    have hmin : getMinimumDurationForState td s = none := by
      rcases hse with rfl | rfl <;> rfl
    unfold renderDeferBlockState
    rw [hdes]
    simp only [Bool.false_eq_true, if_false, hguard, if_true]
    rw [hns]
    simp only [if_true]
    unfold applyDeferBlockStateWithScheduling
    have hnf : notFrozen st = true := by
      unfold notFrozen
      rw [hfz]
    rw [hnf]
    simp only [if_true, hst1, hA]
    rw [hsL]
    simp only [Bool.false_eq_true, if_false]
    unfold applySchedulingElseBranch
    rw [applyMinimumDuration_none td s _ hmin]
    have hC : cancelLoadingAfterOnExit s st =
        { st with
          timers := st.timers.filter (fun t => t.id ≠ id)
          lDetails :=
            { st.lDetails with loadingAfterCleanupFn := none, nextDeferBlockState := none } } := by
      unfold cancelLoadingAfterOnExit cancelTimer
      rw [hcl]
      simp [hgt]
    rw [hC]
    obtain ⟨hl1, hl2, hl3⟩ := applyDeferBlockState_lfields td s
      { st with
        timers := st.timers.filter (fun t => t.id ≠ id)
        lDetails :=
          { st.lDetails with loadingAfterCleanupFn := none, nextDeferBlockState := none } }
    refine ⟨?_, ?_, ?_⟩
    · intro tm htm
      rw [applyDeferBlockState_timers] at htm
      obtain ⟨hmem, hpred⟩ := List.mem_filter.mp htm
      exact of_decide_eq_true hpred
    · rw [hl2]
    · rw [hl1]
  · intro td d evs st0 hA hmL hmP h1 h2 h3 h4 h5 t hmem
    have hInv0 : LoadingAfterInv d [] st0 := by
      refine ⟨?_, ?_, ?_, ?_, h4⟩
      · intro t' hmem'
        rw [h5] at hmem'
        cases hmem'
      · intro tm htm
        rw [h1] at htm
        cases htm
      · intro s' h
        rw [h2] at h
        cases h
      · intro id h
        rw [h3] at h
        cases h
    have hrun := runEvents_preserves_inv td d hA hmL hmP evs [] st0 hInv0
    obtain ⟨t0, ht0, hle⟩ := hrun.mounts t hmem
    rw [List.nil_append] at ht0
    exact ⟨t0, ht0, hle⟩

/-- Witness for C5 (amended): on `tdAfterOnly` (after 100, no minimums) a
Loading request at time 0 on a fresh instance is buffered, arming timer 0
due at 100, without changing the rendered state. -/
theorem loading_after_scheduling_witness :
    (renderDeferBlockState tdAfterOnly .Loading true false
        initialRenderState).lDetails.nextDeferBlockState = some .Loading ∧
      (renderDeferBlockState tdAfterOnly .Loading true false
        initialRenderState).timers = [⟨0, 0 + 100⟩] :=
  ⟨((loading_after_scheduling.1 tdAfterOnly 100 initialRenderState rfl rfl rfl rfl
      (by decide) (by decide)).2.2.1),
    ((loading_after_scheduling.1 tdAfterOnly 100 initialRenderState rfl rfl rfl rfl
      (by decide) (by decide)).2.2.2.2)⟩

end Angular
